import Mathlib

/-!
Verification development for the Lazy-Products file-backed product-catalog
store.  The Python source under src/ is shallowly embedded here:

* text values are Lean `String`s; `str.strip()` is `pyStrip`,
  `str.casefold()` / `str.lower()` are modelled as `pyLower` (all
  column names and slugs compared by the code are ASCII in the relevant
  range), and `str.isdigit()` is modelled as "every char is an ASCII
  decimal digit" (all digits handled by the code are ASCII);
* a CSV file's parsed contents are a `List (List String)` of rows;
* the on-disk state of the registry (categories JSON plus the
  info_products directory) is an explicit `RegState` record, and every
  registry operation is a pure state-passing function;
* fallible operations return `Except Err`; `Err` keeps the error class
  (ServiceError / ValidationError) and elides the message text;
* I/O fault injection (a write failing mid-operation) is passed in as
  explicit boolean oracles, matching how the repository's own tests force
  failures (the injected failure raises before any byte lands).
-/

deriving instance DecidableEq for Except

namespace LazyProducts

/-- Error taxonomy of shared/errors.py: ServiceError and ValidationError
(message strings elided). -/
inductive Err where
  | service : Err
  | validation : Err
deriving DecidableEq, Repr

/-- Python str.strip(): drop leading and trailing whitespace.  Defined on
the char list so that it reduces in the kernel. -/
def pyStrip (s : String) : String :=
  String.mk (((s.data.dropWhile Char.isWhitespace).reverse.dropWhile
    Char.isWhitespace).reverse)

/-- Python str.lower() / str.casefold() on the ASCII-cased strings the
code compares (accented chars in the canonical headers are already
lowercase).  Defined on the char list so that it reduces in the kernel. -/
def pyLower (s : String) : String :=
  String.mk (s.data.map Char.toLower)

/-- Decimal value of a digit string, as Python int() computes it on a
string of ASCII digits. -/
def parseDigits (s : String) : Nat :=
  s.data.foldl (fun n c => 10 * n + (c.toNat - 48)) 0

/-- Python s.isdigit() restricted to ASCII digits (the only digits the
repository manipulates): nonempty and all chars are 0-9. -/
def pyIsDigit (s : String) : Bool :=
  !s.data.isEmpty && s.data.all Char.isDigit

/-- Python s[-n:]: the last n characters of a string. -/
def takeLast (n : Nat) (s : String) : String :=
  String.mk (s.data.drop (s.data.length - n))

/-- Left-pad a string with zeros up to width w, as Python zero-padded
int formatting does for the digits part. -/
def padZeros (w : Nat) (s : String) : String :=
  if s.length < w then String.mk (List.replicate (w - s.length) '0') ++ s else s

/-- Python f-string formatting of a natural number with format 0{w}d. -/
def pyFmtNat (w : Nat) (n : Nat) : String :=
  padZeros w (Nat.repr n)

/-- Python f-string formatting of an int with format 0{w}d (the sign
counts toward the width and zeros pad after the sign). -/
def pyFmtInt (w : Nat) (i : Int) : String :=
  if i < 0 then "-" ++ padZeros (w - 1) (Nat.repr i.natAbs) else pyFmtNat w i.toNat

/-- Canonical 38-column import header of shared/csv_schema.py
(IMPORT_HEADERS). -/
def IMPORT_HEADERS : List String :=
  ["ID", "Base EAN13", "Digito verificador", "Código de Barras", "Producto",
   "Marca", "Modelo", "Cantidad a la mano", "Atributo", "Valores Atributo",
   "Venta con IVA", "Venta sin IVA", "SKU Proveedor", "Largo Envio",
   "Ancho Envio", "Alto Envio", "Peso completo", "Dimensiones Producto",
   "Material", "Proveedor", "Precio de Costo", "# Variantes de producto",
   "Observaciones", "Descripción para el sitio web", "Descripción SEO",
   "Referencia interna", "Nombre Base", "Nombre Comercial",
   "Categoría de Punto de venta", "Subcategoría", "Volumen", "Imagen",
   "Categoría del Producto", "Está Publicado", "Rastrear Inventario",
   "Etiquetas", "Sitio web", "Disponible en PdV"]

/-- Column name of the tracking flag (TRACK_INVENTORY_HEADER). -/
def TRACK_INVENTORY_HEADER : String := "Rastrear Inventario"

/-- Column name of the legacy id column (ID_HEADER). -/
def ID_HEADER : String := "ID"

/-- 37-column category-file header: IMPORT_HEADERS without the ID column
(INFO_PRODUCTS_HEADERS). -/
def INFO_PRODUCTS_HEADERS : List String :=
  IMPORT_HEADERS.filter (fun c => pyLower c != pyLower ID_HEADER)

/-- Alias used by id_registry.py for INFO_PRODUCTS_HEADERS. -/
def INVENTORY_HEADERS : List String := INFO_PRODUCTS_HEADERS

/-- Python slice xs[::2]: every second element starting at the head. -/
def everyOther : List Nat → List Nat
  | [] => []
  | [x] => [x]
  | x :: _ :: rest => x :: everyOther rest

/-- EAN-13 check digit of inventory_utils.ean13_check_digit: strip the
input, require exactly 12 digits, sum digits at 0-based even slice
positions plus three times the digits at odd slice positions, and return
(10 - total mod 10) mod 10 as a string. -/
def ean13CheckDigit (base12 : String) : Except Err String :=
  let normalized := pyStrip base12
  if normalized.length != 12 || !pyIsDigit normalized then
    .error .service
  else
    let digits := normalized.data.map (fun c => c.toNat - 48)
    let oddSum := (everyOther digits).sum
    let evenSum := (everyOther (digits.drop 1)).sum
    let total := oddSum + 3 * evenSum
    .ok (Nat.repr ((10 - total % 10) % 10))

/-- Full EAN-13 barcode of inventory_utils.build_barcode: the stripped
12-digit base followed by its check digit. -/
def buildBarcode (base12 : String) : Except Err String := do
  let normalized := pyStrip base12
  let cd ← ean13CheckDigit normalized
  pure (normalized ++ cd)

/-- Parsed contents of one CSV file: a list of rows. -/
abbrev Csv := List (List String)

/-- csv_schema.normalize_header_name: drop BOM characters and strip. -/
def normalizeHeaderName (h : String) : String :=
  pyStrip (String.mk (h.data.filter (fun c => c.toNat != 0xFEFF)))

/-- csv_schema.resolve_info_products_header: canonical column for a raw
header cell, ignoring blank cells and the ID column; lookup is
case-insensitive against INFO_PRODUCTS_HEADERS. -/
def resolveInfoProductsHeader (h : String) : Option String :=
  let normalized := normalizeHeaderName h
  if normalized.data.isEmpty then none
  else if pyLower normalized == pyLower ID_HEADER then none
  else INFO_PRODUCTS_HEADERS.find? (fun c => pyLower c == pyLower normalized)

/-- IdRegistry._row_has_content: some cell is non-blank after strip. -/
def rowHasContent (row : List String) : Bool :=
  row.any (fun cell => !(pyStrip cell).data.isEmpty)

/-- IdRegistry._is_legacy_ids_header: a single column whose stripped,
casefolded name is "id". -/
def isLegacyIdsHeader (header : List String) : Bool :=
  match header with
  | [h] => pyLower (pyStrip h) == pyLower ID_HEADER
  | _ => false

/-- IdRegistry._header_contains_column (case-insensitive membership). -/
def headerContainsColumn (header : List String) (name : String) : Bool :=
  header.any (fun c => pyLower (pyStrip c) == pyLower name)

/-- IdRegistry._build_placeholder_row: a 37-column row carrying only the
stripped Base EAN13, its derived check digit and barcode when the base is
a valid 12-digit string (blank otherwise; a failed derivation is logged
and swallowed), and the tracking flag "1". -/
def buildPlaceholderRow (baseEan13 : String) : List String :=
  let base := pyStrip baseEan13
  let cd :=
    if base.data.isEmpty then ""
    else match ean13CheckDigit base with
      | .ok v => v
      | .error _ => ""
  let bc :=
    if base.data.isEmpty then ""
    else match ean13CheckDigit base with
      | .ok _ => ((buildBarcode base).toOption).getD ""
      | .error _ => ""
  INVENTORY_HEADERS.map (fun c =>
    if c == "Base EAN13" then base
    else if c == "Digito verificador" then cd
    else if c == "Código de Barras" then bc
    else if c == TRACK_INVENTORY_HEADER then "1"
    else "")

/-- First-occurrence map from canonical column name to the source cell,
as IdRegistry._normalize_full_row builds source_values. -/
def buildSourceValues (header row : List String) : List (String × String) :=
  header.enum.foldl
    (fun acc p =>
      match resolveInfoProductsHeader p.2 with
      | none => acc
      | some c =>
        if acc.any (fun e => e.1 == c) then acc
        else acc ++ [(c, row.getD p.1 "")])
    []

/-- IdRegistry._normalize_full_row: project a row onto the canonical
column order by name, defaulting missing columns to blank and forcing
the tracking flag to "1" when the source lacked a tracking column. -/
def normalizeFullRow (header row : List String) (forceTrack : Bool) : List String :=
  let sv := buildSourceValues header row
  INVENTORY_HEADERS.map (fun c =>
    if forceTrack && c == TRACK_INVENTORY_HEADER then "1"
    else ((sv.lookup c).getD ""))

/-- IdRegistry._normalize_csv_schema at the level of file contents:
some newContents when the file is rewritten, none when it is already
canonical and left untouched. -/
def normalizeCsvSchemaOpt (rows : Csv) : Option Csv :=
  match rows with
  | [] => some [INVENTORY_HEADERS]
  | first :: dataRows =>
    let header := first.map pyStrip
    if isLegacyIdsHeader header then
      some (INVENTORY_HEADERS ::
        (((dataRows.map (fun r => pyStrip (r.headD ""))).filter
            (fun s => !s.data.isEmpty)).map buildPlaceholderRow))
    else if header == INVENTORY_HEADERS then none
    else
      let forceTrack := !headerContainsColumn header TRACK_INVENTORY_HEADER
      some (INVENTORY_HEADERS ::
        ((dataRows.filter rowHasContent).map
          (fun r => normalizeFullRow header r forceTrack)))

/-- Contents of a file after IdRegistry._normalize_csv_schema ran on it. -/
def applyNormalize (rows : Csv) : Csv :=
  (normalizeCsvSchemaOpt rows).getD rows

/-- Index of the last occurrence of a name in the fieldnames row, which
is the occurrence csv.DictReader keeps when names collide. -/
def lastIndexOf (l : List String) (x : String) : Option Nat :=
  match l.reverse.findIdx? (fun y => y == x) with
  | none => none
  | some i => some (l.length - 1 - i)

/-- csv.DictReader row lookup: value at the fieldname's index, with the
restval None of a short row modelled as "" (the caller immediately
replaces None by ""). -/
def dictReaderGet (fields row : List String) (name : String) : Option String :=
  (lastIndexOf fields name).map (fun i => row.getD i "")

/-- IdRegistry._read_last_registered_id on the parsed file contents: the
last non-blank stripped Base EAN13 cell. -/
def readLastRegisteredId (rows : Csv) : Option String :=
  match rows with
  | [] => none
  | fields :: dataRows =>
    dataRows.foldl
      (fun acc row =>
        let v := pyStrip ((dictReaderGet fields row "Base EAN13").getD "")
        if v.data.isEmpty then acc else some v)
      none

/-- IdRegistry._extract_sequence_from_tail: the numeric value of the last
3 characters of the stripped id; ServiceError when the stripped id is
shorter than 3 characters or its tail is not numeric. -/
def extractSequenceFromTail (usedId : String) : Except Err Nat :=
  let cleaned := pyStrip usedId
  if cleaned.length < 3 then .error .service
  else
    let tail := takeLast 3 cleaned
    if !pyIsDigit tail then .error .service
    else .ok (parseDigits tail)

/-- Python max(key=...) over a nonempty list: evaluates the key of every
element (propagating its errors in iteration order) and keeps the first
element with the strictly greatest key. -/
def pyMaxByKey (key : String → Except Err Nat) (x : String) (xs : List String) :
    Except Err String := do
  let k0 ← key x
  let r ← xs.foldlM
    (fun best y => do
      let ky ← key y
      if best.2 < ky then pure (y, ky) else pure best)
    (x, k0)
  pure r.1

/-- Core of IdRegistry.get_next_id once the category code and the parsed
contents of every read path are in hand: take the last registered id of
each file, keep the non-empty ones, pick the one with the maximal trailing
sequence, add one (zero when every file is empty), fail above 999, and
compose prefix 7809990 + 2-digit code + 3-digit sequence. -/
def getNextIdValue (code : Int) (files : List Csv) : Except Err String := do
  let lastIds := files.map readLastRegisteredId
  let nonEmpty := lastIds.filterMap id
  let seq ← match nonEmpty with
    | [] => pure 0
    | x :: xs => do
        let lastId ← pyMaxByKey extractSequenceFromTail x xs
        let s ← extractSequenceFromTail lastId
        pure (s + 1)
  if seq > 999 then .error .service
  else pure ("7809990" ++ pyFmtInt 2 code ++ pyFmtNat 3 seq)

/-! ### Transactional dual-file append (import_builder._append_rows_with_rollback) -/

/-- Raw contents of the session and category files touched by one
transactional append, as char lists standing for file bytes. -/
structure TwoFiles where
  session : List Char
  category : List Char
deriving DecidableEq, Repr

/-- ImportBuilderService._append_rows_with_rollback with explicit fault
oracles: openOk covers the initial open of both handles, and each write
oracle covers one _write_row call (write plus flush).  As in the
repository's own fault-injection test, a failing write raises before any
byte lands.  Both end offsets are captured up front; on a write failure
every file already marked written is truncated back to its captured
offset and ServiceError is raised. -/
def appendRowsWithRollback (st : TwoFiles) (sessionRow categoryRow : List Char)
    (openOk sessionWriteOk categoryWriteOk : Bool) : TwoFiles × Option Err :=
  if !openOk then (st, some .service)
  else
    let sessionOffset := st.session.length
    let _categoryOffset := st.category.length
    if !sessionWriteOk then
      -- the session write raised before session_written was set, so the
      -- rollback helper skips both files
      (st, some .service)
    else
      let afterSession : TwoFiles := { st with session := st.session ++ sessionRow }
      if !categoryWriteOk then
        -- session_written is True: truncate the session file back to its
        -- captured offset; the category file was never marked written
        ({ afterSession with session := afterSession.session.take sessionOffset },
          some .service)
      else
        ({ afterSession with category := afterSession.category ++ categoryRow }, none)

/-! ### Whole-file rewrite discipline (write-temp then atomic replace) -/

/-- Byte rendering of one CSV field with the csv.writer default minimal
quoting: quote when the field holds a delimiter, quote or line break,
doubling embedded quotes. -/
def quoteCsvField (f : String) : List Char :=
  if f.data.any (fun c => c == ',' || c == '"' || c == '\r' || c == '\n') then
    '"' :: (f.data.foldr (fun c acc => if c == '"' then '"' :: '"' :: acc else c :: acc) ['"'])
  else f.data

/-- Byte rendering of one CSV row (csv.writer default \r\n terminator). -/
def renderCsvRow (row : List String) : List Char :=
  (List.intercalate [','] (row.map quoteCsvField)) ++ ['\r', '\n']

/-- Byte rendering of a whole CSV file. -/
def renderCsv (rows : Csv) : List Char :=
  (rows.map renderCsvRow).flatten

/-- Target path and sibling temp path during a whole-file rewrite. -/
structure FsTmp where
  target : Option (List Char)
  temp : Option (List Char)
deriving DecidableEq, Repr

/-- IdRegistry._write_inventory_csv / ImportBuilderService._rewrite_csv as
a sequence of filesystem states: write the full contents to the temp file
(a failure leaves partialLen bytes of it), atomically replace the target
with the temp file, and in a finally block unlink the temp file if it
still exists.  Returns every intermediate state, the final state and the
raised error, under explicit write/replace fault oracles. -/
def rewriteCsvStates (fs : FsTmp) (header : List String) (rows : Csv)
    (writeOk replaceOk : Bool) (partialLen : Nat) :
    List FsTmp × FsTmp × Option Err :=
  let content := renderCsv (header :: rows)
  if !writeOk then
    let s1 : FsTmp := { fs with temp := some (content.take partialLen) }
    let s2 : FsTmp := { s1 with temp := none }
    ([fs, s1, s2], s2, some .service)
  else
    let s1 : FsTmp := { fs with temp := some content }
    if !replaceOk then
      let s2 : FsTmp := { s1 with temp := none }
      ([fs, s1, s2], s2, some .service)
    else
      let s2 : FsTmp := { target := some content, temp := none }
      ([fs, s1, s2], s2, none)

/-! ### Server-side category inventory file (import_builder._ensure_inventory_file) -/

/-- ImportBuilderService.TAGS_HEADER. -/
def TAGS_HEADER : String := "Etiquetas"

/-- ImportBuilderService.CATEGORY_INVENTORY_HEADERS. -/
def CATEGORY_INVENTORY_HEADERS : List String := INFO_PRODUCTS_HEADERS

/-- ImportBuilderService._headers_without_tags. -/
def headersWithoutTags (headers : List String) : List String :=
  headers.filter (fun c => c != TAGS_HEADER)

/-- ImportBuilderService._normalize_row_length: truncate or blank-pad a
row to the expected column count. -/
def normalizeRowLength (row : List String) (n : Nat) : List String :=
  let t := row.take n
  t ++ List.replicate (n - t.length) ""

/-- ImportBuilderService._append_tags_column on file contents: append an
Etiquetas column at the end, padding every data row with a blank cell;
returns the rewritten file and the active header. -/
def appendTagsColumn (rows : Csv) : Csv × List String :=
  let header := (rows.headD []).map pyStrip
  if header.contains TAGS_HEADER then (rows, header)
  else
    let expected := header.length
    let migrated := (rows.drop 1).map (fun r => normalizeRowLength r expected ++ [""])
    (((header ++ [TAGS_HEADER]) :: migrated), header ++ [TAGS_HEADER])

/-- ImportBuilderService._ensure_inventory_file on the optional contents
of the category inventory path: creates the file with the canonical
header when missing or headerless, accepts or migrates the known header
generations, and fails with ServiceError on any other header, leaving the
file contents untouched.  Returns the updated contents and the active
header (or the raised error). -/
def ensureInventoryFile (file : Option Csv) : Option Csv × Except Err (List String) :=
  match file with
  | none => (some [CATEGORY_INVENTORY_HEADERS], .ok CATEGORY_INVENTORY_HEADERS)
  | some rows =>
    let header := (rows.headD []).map pyStrip
    if header.isEmpty then
      (some [CATEGORY_INVENTORY_HEADERS], .ok CATEGORY_INVENTORY_HEADERS)
    else if header == CATEGORY_INVENTORY_HEADERS then (some rows, .ok header)
    else if header == headersWithoutTags CATEGORY_INVENTORY_HEADERS then
      let p := appendTagsColumn rows
      (some p.1, .ok p.2)
    else if header == headersWithoutTags CATEGORY_INVENTORY_HEADERS ++ [TAGS_HEADER] then
      (some rows, .ok header)
    else if header == headersWithoutTags IMPORT_HEADERS then
      let legacyNoTags := headersWithoutTags CATEGORY_INVENTORY_HEADERS
      let migrated :=
        ((rows.drop 1).filter (fun r => r.length > 1 && rowHasContent (r.drop 1))).map
          (fun r => normalizeRowLength (r.drop 1) legacyNoTags.length ++ [""])
      let mh := legacyNoTags ++ [TAGS_HEADER]
      (some (mh :: migrated), .ok mh)
    else if header == IMPORT_HEADERS then
      let migrated :=
        ((rows.drop 1).filter (fun r => r.length > 1 && rowHasContent (r.drop 1))).map
          (fun r => r.drop 1)
      (some (CATEGORY_INVENTORY_HEADERS :: migrated), .ok CATEGORY_INVENTORY_HEADERS)
    else (some rows, .error .service)

/-! ### Registry state machine (cliente/backend/id_registry.py)

The categories JSON document and the info_products directory are an
explicit state record.  Directory listing order follows Python's
sorted(glob), i.e. lexicographic code-point order of the file names; the
filename normalization _slug_from_filename (which relies on Unicode NFKD
decomposition) is passed in as an explicit parameter slugFn. -/

/-- Lexicographic code-point comparison of char lists (Python string <). -/
def pyCharListLt : List Char → List Char → Bool
  | [], [] => false
  | [], _ :: _ => true
  | _ :: _, [] => false
  | a :: as, b :: bs =>
    if a.toNat < b.toNat then true
    else if b.toNat < a.toNat then false
    else pyCharListLt as bs

/-- Python string <= on code points. -/
def pyStrLe (a b : String) : Bool := !pyCharListLt b.data a.data

/-- Insert into a sorted list, before the first element it compares
less-or-equal to (a stable insertion). -/
def orderedInsertBy {α : Type} (le : α → α → Bool) (a : α) : List α → List α
  | [] => [a]
  | b :: l => if le a b then a :: b :: l else b :: orderedInsertBy le a l

/-- Stable insertion sort, modelling Python's stable sorted()/list.sort(). -/
def sortBy {α : Type} (le : α → α → Bool) : List α → List α
  | [] => []
  | a :: l => orderedInsertBy le a (sortBy le l)

/-- One category of the categories JSON document. -/
structure Category where
  slug : String
  displayName : String
  code : Int
deriving DecidableEq, Repr

/-- Parsed categories JSON document {next_code, categories}. -/
structure CatStore where
  nextCode : Int
  categories : List Category
deriving DecidableEq, Repr

/-- On-disk state of the registry: the optional categories JSON document
and the info_products directory as (file stem, parsed contents) entries. -/
structure RegState where
  json : Option CatStore
  files : List (String × Csv)
deriving DecidableEq, Repr

/-- Lookup in a (stem, contents) directory listing. -/
def lookupL {β : Type} : List (String × β) → String → Option β
  | [], _ => none
  | e :: fs, s => if e.1 = s then some e.2 else lookupL fs s

/-- Write into a (stem, contents) directory listing: replace in place
when the stem exists, append otherwise. -/
def setL {β : Type} : List (String × β) → String → β → List (String × β)
  | [], s, v => [(s, v)]
  | e :: fs, s, v => if e.1 = s then (s, v) :: fs else e :: setL fs s v

/-- Remove a stem from a (stem, contents) directory listing. -/
def unlinkL {β : Type} (fs : List (String × β)) (s : String) :
    List (String × β) :=
  fs.filter (fun e => e.1 != s)

/-- Contents of the CSV file with the given stem, if it exists. -/
def lookupF (st : RegState) (stem : String) : Option Csv :=
  lookupL st.files stem

/-- Write (create or overwrite) the CSV file with the given stem. -/
def setF (st : RegState) (stem : String) (rows : Csv) : RegState :=
  { st with files := setL st.files stem rows }

/-- Delete the CSV file with the given stem (Path.unlink). -/
def unlinkF (st : RegState) (stem : String) : RegState :=
  { st with files := unlinkL st.files stem }

/-- Python sorted(info_products_dir.glob("*.csv")): the existing stems in
lexicographic order of the full file names (stem plus ".csv"). -/
def globStems (st : RegState) : List String :=
  sortBy (fun a b => pyStrLe (a ++ ".csv") (b ++ ".csv")) (st.files.map Prod.fst)

/-- Read an existing CSV file; a missing file is an I/O failure wrapped
into ServiceError by _read_csv_rows. -/
def readF (st : RegState) (stem : String) : Except Err Csv :=
  match lookupF st stem with
  | some rows => .ok rows
  | none => .error .service

/-- Run IdRegistry._normalize_csv_schema against the file at a stem. -/
def normStep (st : RegState) (stem : String) : Except Err RegState := do
  let rows ← readF st stem
  pure (setF st stem (applyNormalize rows))

/-- The 13 default categories seeded by IdRegistry (display names carry
the source's literal mis-decoded bytes). -/
def defaultCategories : List Category :=
  [⟨"punos", "PuÃ±os", 0⟩, ⟨"sillin", "SillÃ­n", 1⟩, ⟨"luces", "Luces", 2⟩,
   ⟨"camaras", "CÃ¡maras", 3⟩, ⟨"neumatico", "NeumÃ¡tico", 4⟩,
   ⟨"pedales", "Pedales", 5⟩, ⟨"caramagiola", "Caramagiola", 6⟩,
   ⟨"porta-caramagiola", "Porta-caramagiola", 7⟩, ⟨"cascos", "Cascos", 8⟩,
   ⟨"cadenas", "Cadenas", 9⟩, ⟨"manillas-de-freno", "Manillas de freno", 10⟩,
   ⟨"manillas-de-cambio", "Manillas de cambio", 11⟩, ⟨"tricota", "Tricota", 12⟩]

/-- JSON document seeded when categories.json is absent. -/
def defaultStore : CatStore := ⟨13, defaultCategories⟩

/-- Seed categories.json with the defaults when it does not exist. -/
def seedJson (st : RegState) : RegState :=
  if st.json.isSome then st else { st with json := some defaultStore }

/-- IdRegistry._read_categories_data: fails with ServiceError when the
document cannot be read. -/
def readStore (st : RegState) : Except Err CatStore :=
  match st.json with
  | some d => .ok d
  | none => .error .service

/-- IdRegistry._parse_categories: strip slug and display name, keep the
code, and fail with ServiceError when either string is blank. -/
def parseCategories (raw : List Category) : Except Err (List Category) :=
  raw.mapM (fun item =>
    let c : Category :=
      ⟨pyStrip item.slug, pyStrip item.displayName, item.code⟩
    if c.slug.data.isEmpty || c.displayName.data.isEmpty then .error .service
    else pure c)

/-- IdRegistry._SLUG_ALIAS_LOOKUP. -/
def slugAliasLookup (s : String) : Option (List String) :=
  if s == "neumatico" || s == "neumaticos" then some ["neumatico", "neumaticos"]
  else if s == "casco" || s == "cascos" then some ["casco", "cascos"]
  else none

/-- One iteration of _consolidate_noncanonical_category_files for the
file at one stem: skip stems that do not name a known category or that
already are the canonical file; otherwise normalize the file, drop it if
it has no data rows, move it onto a missing canonical file, merge it into
an empty canonical file, and refuse to touch a canonical file that
already has data. -/
def consStep (slugFn : String → String) (validSlugs : List String)
    (st : RegState) (stem : String) : Except Err RegState :=
  let slug := slugFn stem
  if !(validSlugs.contains slug) then pure st
  else if stem == slug then pure st
  else do
    let st1 ← normStep st stem
    let rows ← readF st1 stem
    let srcData := (rows.drop 1).filter rowHasContent
    if srcData.isEmpty then pure (unlinkF st1 stem)
    else
      match lookupF st1 slug with
      | none => pure (unlinkF (setF st1 slug rows) stem)
      | some _ => do
        let st2 ← normStep st1 slug
        let crows ← readF st2 slug
        if (crows.drop 1).any rowHasContent then pure st2
        else pure (unlinkF (setF st2 slug (INVENTORY_HEADERS :: srcData)) stem)

/-- IdRegistry._consolidate_noncanonical_category_files over the sorted
directory listing captured at entry. -/
def consolidate (slugFn : String → String) (cats : List Category)
    (st : RegState) : Except Err RegState :=
  (globStems st).foldlM (consStep slugFn (cats.map (fun c => c.slug))) st

/-- IdRegistry._ensure_category_csv: create the canonical file with the
canonical header when missing, otherwise normalize it in place. -/
def ensureCategoryCsv (st : RegState) (slug : String) : RegState :=
  match lookupF st slug with
  | none => setF st slug [INVENTORY_HEADERS]
  | some rows => setF st slug (applyNormalize rows)

/-- The ensure-every-category-file loop of ensure_initialized. -/
def ensureLoop (cats : List Category) (st : RegState) : RegState :=
  cats.foldl (fun s c => ensureCategoryCsv s c.slug) st

/-- The final normalize-every-file loop of ensure_initialized. -/
def normalizeAll (st : RegState) : Except Err RegState :=
  (globStems st).foldlM normStep st

/-- IdRegistry.ensure_initialized: seed the JSON store when absent, parse
the categories, consolidate non-canonical files, ensure every category
CSV, and normalize every file in the directory. -/
def ensureInitialized (slugFn : String → String) (st : RegState) :
    Except Err RegState := do
  let st1 := seedJson st
  let store ← readStore st1
  let cats ← parseCategories store.categories
  let st2 ← consolidate slugFn cats st1
  let st3 := ensureLoop cats st2
  normalizeAll st3

/-- IdRegistry.list_categories: ensure_initialized, then the parsed
categories sorted by code (Python's stable sort). -/
def listCategories (slugFn : String → String) (st : RegState) :
    Except Err (List Category × RegState) := do
  let st1 ← ensureInitialized slugFn st
  let store ← readStore st1
  let cats ← parseCategories store.categories
  pure (sortBy (fun a b => decide (a.code ≤ b.code)) cats, st1)

/-- IdRegistry._normalize_slug against an already-loaded category list:
strip and lowercase, then resolve through the alias table only when the
resolved form exists among the category slugs. -/
def pyNormalizeSlug (slug : String) (cats : List Category) : String :=
  let n := pyLower (pyStrip slug)
  if n.data.isEmpty then n
  else
    match slugAliasLookup n with
    | none => n
    | some group =>
      let slugs := cats.map (fun c => c.slug)
      if slugs.contains n then n
      else
        match group.find? (fun a => slugs.contains a) with
        | some a => a
        | none => n

/-- IdRegistry._get_category: list categories, resolve the slug, and
return the matching category or ValidationError. -/
def getCategory (slugFn : String → String) (st : RegState) (slug : String) :
    Except Err (Category × RegState) := do
  let p ← listCategories slugFn st
  let nslug := pyNormalizeSlug slug p.1
  match p.1.find? (fun c => c.slug == nslug) with
  | some c => pure (c, p.2)
  | none => .error .validation

/-- IdRegistry._category_csv_read_paths: the canonical stem plus every
existing legacy-alias stem of the canonical slug. -/
def categoryReadPaths (st : RegState) (canonicalSlug : String) : List String :=
  match slugAliasLookup canonicalSlug with
  | none => [canonicalSlug]
  | some group =>
    canonicalSlug ::
      group.filter (fun a => a != canonicalSlug && (lookupF st a).isSome)

/-- IdRegistry.get_next_id as a state-passing operation: resolve the
category (which runs ensure_initialized), ensure its CSV, and derive the
next id from the canonical file plus the existing legacy-alias files. -/
def getNextId (slugFn : String → String) (st : RegState) (slug : String) :
    Except Err (String × RegState) := do
  let p ← getCategory slugFn st slug
  let st2 := ensureCategoryCsv p.2 p.1.slug
  let paths := categoryReadPaths st2 p.1.slug
  let files ← paths.mapM (readF st2)
  let v ← getNextIdValue p.1.code files
  pure (v, st2)

/-! ### Stability predicates for the registry state -/

/-- A file whose (stripped) header row is the canonical 37-column
inventory header. -/
def isCanonicalForm (rows : Csv) : Bool :=
  match rows with
  | [] => false
  | h :: _ => h.map pyStrip == INVENTORY_HEADERS

/-- A file with at least one data row that has content. -/
def hasData (rows : Csv) : Bool :=
  (rows.drop 1).any rowHasContent

/-- Directory listings never hold two files of the same name. -/
def keysNodup (st : RegState) : Prop :=
  (st.files.map Prod.fst).Nodup

/-- A registry state on which ensure_initialized has nothing left to do:
the JSON store exists and parses, the filename normalizer fixes every
known slug, every known category file exists, every file is canonical,
and every surviving legacy-alias file kept its data because its canonical
file also has data (the refuse-to-overwrite branch). -/
def Stable (slugFn : String → String) (st : RegState) : Prop :=
  keysNodup st ∧
  ∃ store cats,
    st.json = some store ∧
    parseCategories store.categories = .ok cats ∧
    (∀ c ∈ cats, slugFn c.slug = c.slug) ∧
    (∀ c ∈ cats, (lookupF st c.slug).isSome) ∧
    (∀ e ∈ st.files, isCanonicalForm e.2 = true) ∧
    (∀ e ∈ st.files, slugFn e.1 ∈ cats.map (fun c => c.slug) → e.1 ≠ slugFn e.1 →
      hasData e.2 = true ∧
      ∃ crows, lookupF st (slugFn e.1) = some crows ∧ hasData crows = true)

/-- The effect of one consolidation iteration on an alias stem, once the
stem's file contents are known (the pure tail of consStep after its first
read succeeded). -/
def consStepTail (slugFn : String → String) (st : RegState) (stem : String)
    (rows : Csv) : RegState :=
  let n := applyNormalize rows
  let st1 := setF st stem n
  let srcData := (n.drop 1).filter rowHasContent
  if srcData.isEmpty then unlinkF st1 stem
  else
    match lookupF st1 (slugFn stem) with
    | none => unlinkF (setF st1 (slugFn stem) n) stem
    | some crows =>
      let st2 := setF st1 (slugFn stem) (applyNormalize crows)
      if ((applyNormalize crows).drop 1).any rowHasContent then st2
      else unlinkF (setF st2 (slugFn stem) (INVENTORY_HEADERS :: srcData)) stem

/-- A surviving legacy-alias file in a healthy state: canonical with
data, and its canonical file exists, is canonical and has data. -/
def StrongAlias (slugFn : String → String) (st : RegState)
    (e : String × Csv) : Prop :=
  isCanonicalForm e.2 = true ∧ hasData e.2 = true ∧
  ∃ crows, lookupF st (slugFn e.1) = some crows ∧
    isCanonicalForm crows = true ∧ hasData crows = true

/-! ### Concrete fixtures used to exercise the theorems on closed inputs -/

/-- A one-category store: neumatico with code 4 (the slug with a legacy
alias in _SLUG_ALIAS_LOOKUP). -/
def wCats : List Category := [⟨"neumatico", "Neumatico", 4⟩]

/-- Canonical neumatico file whose last registered sequence is 010. -/
def wFileA : Csv := [INVENTORY_HEADERS, ["780999004010"]]

/-- Canonical legacy-alias file (neumaticos) whose last sequence is 099. -/
def wFileB : Csv := [INVENTORY_HEADERS, ["780999004099"]]

/-- Registry state with a canonical file at sequence 010 and an existing
legacy-alias file at sequence 099 for the same category. -/
def wSt : RegState :=
  ⟨some ⟨5, wCats⟩, [("neumatico", wFileA), ("neumaticos", wFileB)]⟩

/-- Canonical neumatico file whose last sequence is the ceiling 999. -/
def wFileC : Csv := [INVENTORY_HEADERS, ["780999004999"]]

/-- Registry state whose only category file already sits at sequence 999. -/
def wSt3 : RegState := ⟨some ⟨5, wCats⟩, [("neumatico", wFileC)]⟩

/-- A one-category store for the initialization fixtures. -/
def wCat9 : Category := ⟨"punos", "Punos", 0⟩

/-- Registry state with a seeded JSON store and no files yet. -/
def wSt0 : RegState := ⟨some ⟨1, [wCat9]⟩, []⟩

/-- The state ensure_initialized produces from wSt0. -/
def wSt9 : RegState := ⟨some ⟨1, [wCat9]⟩, [("punos", [INVENTORY_HEADERS])]⟩

/-! ### Lemmas about the stable insertion sort -/

theorem perm_orderedInsertBy {α : Type} (le : α → α → Bool) (a : α) (l : List α) :
    List.Perm (orderedInsertBy le a l) (a :: l) := by
  induction l with
  | nil => simp [orderedInsertBy]
  | cons b l ih =>
    simp only [orderedInsertBy]
    split
    · exact List.Perm.refl _
    · exact ((ih.cons b).trans (List.Perm.swap a b l))

theorem perm_sortBy {α : Type} (le : α → α → Bool) (l : List α) :
    List.Perm (sortBy le l) l := by
  induction l with
  | nil => simp [sortBy]
  | cons a l ih => exact (perm_orderedInsertBy le a (sortBy le l)).trans (ih.cons a)

theorem mem_sortBy {α : Type} {le : α → α → Bool} {l : List α} {a : α} :
    a ∈ sortBy le l ↔ a ∈ l :=
  (perm_sortBy le l).mem_iff

theorem nodup_sortBy {α : Type} {le : α → α → Bool} {l : List α} :
    (sortBy le l).Nodup ↔ l.Nodup :=
  (perm_sortBy le l).nodup_iff

/-! ### Lemmas about the directory-listing operations -/

theorem mem_of_lookupL_eq_some {β : Type} {fs : List (String × β)} {s : String}
    {v : β} (h : lookupL fs s = some v) : (s, v) ∈ fs := by
  induction fs with
  | nil => simp [lookupL] at h
  | cons e fs ih =>
    obtain ⟨e1, e2⟩ := e
    by_cases he : e1 = s
    · simp only [lookupL, he, if_pos rfl] at h
      cases h
      subst he
      exact List.mem_cons_self _ _
    · simp only [lookupL, if_neg he] at h
      exact List.mem_cons_of_mem _ (ih h)

theorem lookupL_eq_none_iff {β : Type} {fs : List (String × β)} {s : String} :
    lookupL fs s = none ↔ ∀ e ∈ fs, e.1 ≠ s := by
  induction fs with
  | nil => simp [lookupL]
  | cons e fs ih =>
    by_cases he : e.1 = s
    · simp [lookupL, he]
    · simp [lookupL, he, ih]

theorem lookupL_isSome_iff {β : Type} {fs : List (String × β)} {s : String} :
    (lookupL fs s).isSome ↔ ∃ e ∈ fs, e.1 = s := by
  induction fs with
  | nil => simp [lookupL]
  | cons e fs ih =>
    by_cases he : e.1 = s
    · simp [lookupL, he]
    · simp [lookupL, he, ih]

theorem lookupL_setL_self {β : Type} (fs : List (String × β)) (s : String) (v : β) :
    lookupL (setL fs s v) s = some v := by
  induction fs with
  | nil => simp [setL, lookupL]
  | cons e fs ih =>
    by_cases he : e.1 = s
    · simp [setL, he, lookupL]
    · simp [setL, he, lookupL, ih]

theorem lookupL_setL_ne {β : Type} (fs : List (String × β)) {s t : String} (v : β)
    (h : t ≠ s) : lookupL (setL fs s v) t = lookupL fs t := by
  have hst : s ≠ t := fun hh => h hh.symm
  induction fs with
  | nil => simp [setL, lookupL, hst]
  | cons e fs ih =>
    by_cases he : e.1 = s
    · have het : e.1 ≠ t := by rw [he]; exact hst
      simp [setL, he, lookupL, hst, het]
    · by_cases het : e.1 = t
      · simp only [setL, if_neg he]
        simp [lookupL, het]
      · simp only [setL, if_neg he]
        simp [lookupL, het, ih]

theorem setL_self {β : Type} {fs : List (String × β)} {s : String} {v : β}
    (h : lookupL fs s = some v) : setL fs s v = fs := by
  induction fs with
  | nil => simp [lookupL] at h
  | cons e fs ih =>
    by_cases he : e.1 = s
    · simp only [lookupL, if_pos he] at h
      cases h
      simp only [setL, if_pos he]
      obtain ⟨e1, e2⟩ := e
      simp only at he
      rw [he]
    · simp only [lookupL, if_neg he] at h
      simp [setL, he, ih h]

theorem mem_setL {β : Type} {fs : List (String × β)} {s : String} {v : β}
    {x : String × β} (hnd : (fs.map Prod.fst).Nodup) (hx : x ∈ setL fs s v) :
    x = (s, v) ∨ (x ∈ fs ∧ x.1 ≠ s) := by
  induction fs with
  | nil => simp [setL] at hx; left; exact hx
  | cons e fs ih =>
    have hnd2 : e.1 ∉ fs.map Prod.fst ∧ (fs.map Prod.fst).Nodup := by
      rw [List.map_cons, List.nodup_cons] at hnd
      exact hnd
    by_cases he : e.1 = s
    · simp only [setL, if_pos he] at hx
      rcases List.mem_cons.mp hx with hh | hh
      · left; exact hh
      · right
        refine ⟨List.mem_cons_of_mem _ hh, ?_⟩
        intro hxs
        have hmm : x.1 ∈ fs.map Prod.fst := List.mem_map_of_mem Prod.fst hh
        rw [hxs, ← he] at hmm
        exact hnd2.1 hmm
    · simp only [setL, if_neg he] at hx
      rcases List.mem_cons.mp hx with hh | hh
      · right; exact ⟨by simp [hh], by rw [hh]; exact he⟩
      · rcases ih hnd2.2 hh with hh2 | hh2
        · left; exact hh2
        · right; exact ⟨List.mem_cons_of_mem _ hh2.1, hh2.2⟩

theorem keys_setL_of_isSome {β : Type} {fs : List (String × β)} {s : String}
    (v : β) (h : (lookupL fs s).isSome) :
    (setL fs s v).map Prod.fst = fs.map Prod.fst := by
  induction fs with
  | nil => simp [lookupL] at h
  | cons e fs ih =>
    by_cases he : e.1 = s
    · simp [setL, he]
    · simp only [lookupL, if_neg he] at h
      simp [setL, he, ih h]

theorem keys_setL_of_none {β : Type} {fs : List (String × β)} {s : String}
    (v : β) (h : lookupL fs s = none) :
    (setL fs s v).map Prod.fst = fs.map Prod.fst ++ [s] := by
  induction fs with
  | nil => simp [setL]
  | cons e fs ih =>
    by_cases he : e.1 = s
    · simp [lookupL, he] at h
    · simp only [lookupL, if_neg he] at h
      simp [setL, he, ih h]

theorem nodup_keys_setL {β : Type} {fs : List (String × β)} {s : String} (v : β)
    (hnd : (fs.map Prod.fst).Nodup) : ((setL fs s v).map Prod.fst).Nodup := by
  cases h : lookupL fs s with
  | some w => rw [keys_setL_of_isSome v (by rw [h]; rfl)]; exact hnd
  | none =>
    rw [keys_setL_of_none v h]
    have hs : s ∉ fs.map Prod.fst := by
      intro hmem
      rcases List.mem_map.mp hmem with ⟨e, he, hes⟩
      exact (lookupL_eq_none_iff.mp h e he) hes
    rw [List.nodup_append]
    refine ⟨hnd, List.nodup_singleton s, fun x hx hxs => ?_⟩
    rw [List.mem_singleton] at hxs
    exact hs (hxs ▸ hx)

theorem mem_unlinkL {β : Type} {fs : List (String × β)} {s : String}
    {x : String × β} : x ∈ unlinkL fs s ↔ x ∈ fs ∧ x.1 ≠ s := by
  unfold unlinkL
  rw [List.mem_filter]
  simp

theorem lookupL_unlinkL_self {β : Type} (fs : List (String × β)) (s : String) :
    lookupL (unlinkL fs s) s = none := by
  rw [lookupL_eq_none_iff]
  intro e he
  exact (mem_unlinkL.mp he).2

theorem lookupL_unlinkL_ne {β : Type} (fs : List (String × β)) {s t : String}
    (h : t ≠ s) : lookupL (unlinkL fs s) t = lookupL fs t := by
  induction fs with
  | nil => rfl
  | cons e fs ih =>
    by_cases hes : e.1 = s
    · have het : e.1 ≠ t := by rw [hes]; exact fun hh => h hh.symm
      simp only [unlinkL, List.filter_cons]
      rw [if_neg (by simp [hes])]
      unfold unlinkL at ih
      rw [ih]
      simp [lookupL, het]
    · simp only [unlinkL, List.filter_cons]
      rw [if_pos (by simp [hes])]
      by_cases het : e.1 = t
      · simp [lookupL, het]
      · unfold unlinkL at ih
        simp [lookupL, het, ih]

theorem keys_unlinkL_sublist {β : Type} (fs : List (String × β)) (s : String) :
    ((unlinkL fs s).map Prod.fst).Sublist (fs.map Prod.fst) :=
  (List.filter_sublist fs).map Prod.fst

theorem nodup_keys_unlinkL {β : Type} {fs : List (String × β)} {s : String}
    (hnd : (fs.map Prod.fst).Nodup) : ((unlinkL fs s).map Prod.fst).Nodup :=
  hnd.sublist (keys_unlinkL_sublist fs s)

/-! ### Lemmas about schema normalization -/

theorem strip_canonical_headers : INVENTORY_HEADERS.map pyStrip = INVENTORY_HEADERS := by
  decide

theorem legacy_canonical_false : isLegacyIdsHeader INVENTORY_HEADERS = false := by
  decide

theorem isCanonicalForm_applyNormalize (rows : Csv) :
    isCanonicalForm (applyNormalize rows) = true := by
  unfold applyNormalize normalizeCsvSchemaOpt
  cases rows with
  | nil => simp [isCanonicalForm, strip_canonical_headers]
  | cons first dataRows =>
    by_cases hleg : isLegacyIdsHeader (first.map pyStrip) = true
    · simp [hleg, isCanonicalForm, strip_canonical_headers]
    · by_cases hcan : first.map pyStrip = INVENTORY_HEADERS
      · simp [hleg, hcan, isCanonicalForm, legacy_canonical_false]
      · simp [hleg, hcan, isCanonicalForm, strip_canonical_headers]

theorem normalizeCsvSchemaOpt_of_canonical {rows : Csv}
    (h : isCanonicalForm rows = true) : normalizeCsvSchemaOpt rows = none := by
  cases rows with
  | nil => simp [isCanonicalForm] at h
  | cons first dataRows =>
    have hcan : first.map pyStrip = INVENTORY_HEADERS := by
      simpa [isCanonicalForm] using h
    simp [normalizeCsvSchemaOpt, hcan, legacy_canonical_false]

theorem applyNormalize_of_canonical {rows : Csv}
    (h : isCanonicalForm rows = true) : applyNormalize rows = rows := by
  unfold applyNormalize
  rw [normalizeCsvSchemaOpt_of_canonical h]
  rfl

theorem applyNormalize_idem (rows : Csv) :
    applyNormalize (applyNormalize rows) = applyNormalize rows :=
  applyNormalize_of_canonical (isCanonicalForm_applyNormalize rows)

theorem normStep_of_canonical {st : RegState} {stem : String} {rows : Csv}
    (hl : lookupF st stem = some rows) (hc : isCanonicalForm rows = true) :
    normStep st stem = .ok st := by
  unfold normStep readF
  rw [hl]
  show Except.ok (setF st stem (applyNormalize rows)) = .ok st
  rw [applyNormalize_of_canonical hc]
  unfold setF
  rw [setL_self hl]

/-! ### Stable states are fixed points of ensure_initialized -/

theorem foldlM_ok_id {α : Type} {f : RegState → α → Except Err RegState}
    {st : RegState} {l : List α} (h : ∀ a ∈ l, f st a = .ok st) :
    l.foldlM f st = .ok st := by
  induction l with
  | nil => rfl
  | cons a l ih =>
    rw [List.foldlM_cons, h a (List.mem_cons_self a l)]
    exact ih (fun x hx => h x (List.mem_cons_of_mem a hx))

theorem canonical_of_lookupF {st : RegState} {stem : String} {rows : Csv}
    (hst : ∀ e ∈ st.files, isCanonicalForm e.2 = true)
    (hl : lookupF st stem = some rows) : isCanonicalForm rows = true :=
  hst (stem, rows) (mem_of_lookupL_eq_some hl)

theorem filter_not_isEmpty_of_any {l : List (List String)}
    (h : l.any rowHasContent = true) :
    (l.filter rowHasContent).isEmpty = false := by
  rcases List.any_eq_true.mp h with ⟨x, hx, hpx⟩
  have : x ∈ l.filter rowHasContent := List.mem_filter.mpr ⟨hx, hpx⟩
  cases hf : l.filter rowHasContent with
  | nil => rw [hf] at this; simp at this
  | cons a as => rfl

theorem consStep_stable_id {slugFn : String → String} {st : RegState}
    {cats : List Category} {stem : String}
    (hcanon : ∀ e ∈ st.files, isCanonicalForm e.2 = true)
    (halias : ∀ e ∈ st.files,
      slugFn e.1 ∈ cats.map (fun c => c.slug) → e.1 ≠ slugFn e.1 →
      hasData e.2 = true ∧
      ∃ crows, lookupF st (slugFn e.1) = some crows ∧ hasData crows = true)
    (hex : (lookupF st stem).isSome) :
    consStep slugFn (cats.map (fun c => c.slug)) st stem = .ok st := by
  unfold consStep
  by_cases hmem : ((cats.map (fun c => c.slug)).contains (slugFn stem)) = true
  · rw [if_neg (by rw [hmem]; simp)]
    by_cases hself : stem = slugFn stem
    · rw [if_pos (beq_iff_eq.mpr hself)]
      rfl
    · rw [if_neg (by simp [hself])]
      obtain ⟨rows, hrows⟩ := Option.isSome_iff_exists.mp hex
      have hrc := canonical_of_lookupF hcanon hrows
      have hal := halias (stem, rows) (mem_of_lookupL_eq_some hrows)
        (by simpa using hmem) hself
      obtain ⟨hdata, crows, hcrows, hcdata⟩ := hal
      rw [normStep_of_canonical hrows hrc]
      show (do
        let rows2 ← readF st stem
        let srcData := (rows2.drop 1).filter rowHasContent
        if srcData.isEmpty then pure (unlinkF st stem)
        else
          match lookupF st (slugFn stem) with
          | none => pure (unlinkF (setF st (slugFn stem) rows2) stem)
          | some _ => do
            let st2 ← normStep st (slugFn stem)
            let crows2 ← readF st2 (slugFn stem)
            if (crows2.drop 1).any rowHasContent then pure st2
            else pure (unlinkF (setF st2 (slugFn stem)
              (INVENTORY_HEADERS :: srcData)) stem)) = .ok st
      unfold readF
      rw [hrows]
      show (if ((rows.drop 1).filter rowHasContent).isEmpty then
          pure (unlinkF st stem)
        else
          match lookupF st (slugFn stem) with
          | none => pure (unlinkF (setF st (slugFn stem) rows) stem)
          | some _ => do
            let st2 ← normStep st (slugFn stem)
            let crows2 ← readF st2 (slugFn stem)
            if (crows2.drop 1).any rowHasContent then pure st2
            else pure (unlinkF (setF st2 (slugFn stem)
              (INVENTORY_HEADERS :: ((rows.drop 1).filter rowHasContent))) stem) :
          Except Err RegState) = .ok st
      rw [filter_not_isEmpty_of_any hdata]
      simp only [Bool.false_eq_true, if_false]
      rw [hcrows]
      rw [normStep_of_canonical hcrows (canonical_of_lookupF hcanon hcrows)]
      show (do
        let crows2 ← readF st (slugFn stem)
        if (crows2.drop 1).any rowHasContent then pure st
        else pure (unlinkF (setF st (slugFn stem)
          (INVENTORY_HEADERS :: ((rows.drop 1).filter rowHasContent))) stem) :
        Except Err RegState) = .ok st
      unfold readF
      rw [hcrows]
      show (if (crows.drop 1).any rowHasContent then pure st
        else pure (unlinkF (setF st (slugFn stem)
          (INVENTORY_HEADERS :: ((rows.drop 1).filter rowHasContent))) stem) :
        Except Err RegState) = .ok st
      rw [show (crows.drop 1).any rowHasContent = true from hcdata]
      rfl
  · have hc : ((cats.map (fun c => c.slug)).contains (slugFn stem)) = false := by
      simpa using hmem
    rw [if_pos (by rw [hc]; rfl)]
    rfl

theorem consolidate_stable_id {slugFn : String → String} {st : RegState}
    {cats : List Category}
    (hcanon : ∀ e ∈ st.files, isCanonicalForm e.2 = true)
    (halias : ∀ e ∈ st.files,
      slugFn e.1 ∈ cats.map (fun c => c.slug) → e.1 ≠ slugFn e.1 →
      hasData e.2 = true ∧
      ∃ crows, lookupF st (slugFn e.1) = some crows ∧ hasData crows = true) :
    consolidate slugFn cats st = .ok st := by
  unfold consolidate
  apply foldlM_ok_id
  intro stem hstem
  apply consStep_stable_id hcanon halias
  rcases List.mem_map.mp (mem_sortBy.mp hstem) with ⟨e, he, hes⟩
  exact lookupL_isSome_iff.mpr ⟨e, he, hes⟩

theorem ensureCategoryCsv_stable {st : RegState} {slug : String}
    (hcanon : ∀ e ∈ st.files, isCanonicalForm e.2 = true)
    (hex : (lookupF st slug).isSome) : ensureCategoryCsv st slug = st := by
  obtain ⟨rows, hrows⟩ := Option.isSome_iff_exists.mp hex
  unfold ensureCategoryCsv
  rw [hrows]
  show setF st slug (applyNormalize rows) = st
  rw [applyNormalize_of_canonical (canonical_of_lookupF hcanon hrows)]
  unfold setF
  rw [setL_self hrows]

theorem ensureLoop_stable {st : RegState} {cats : List Category}
    (hcanon : ∀ e ∈ st.files, isCanonicalForm e.2 = true)
    (hex : ∀ c ∈ cats, (lookupF st c.slug).isSome) :
    ensureLoop cats st = st := by
  unfold ensureLoop
  induction cats with
  | nil => rfl
  | cons c cats ih =>
    rw [List.foldl_cons,
      ensureCategoryCsv_stable hcanon (hex c (List.mem_cons_self c cats))]
    exact ih (fun x hx => hex x (List.mem_cons_of_mem c hx))

theorem normalizeAll_stable {st : RegState}
    (hcanon : ∀ e ∈ st.files, isCanonicalForm e.2 = true) :
    normalizeAll st = .ok st := by
  unfold normalizeAll
  apply foldlM_ok_id
  intro stem hstem
  rcases List.mem_map.mp (mem_sortBy.mp hstem) with ⟨e, he, hes⟩
  have hex : (lookupF st stem).isSome := lookupL_isSome_iff.mpr ⟨e, he, hes⟩
  obtain ⟨rows, hrows⟩ := Option.isSome_iff_exists.mp hex
  exact normStep_of_canonical hrows (canonical_of_lookupF hcanon hrows)

theorem ensureInitialized_of_stable {slugFn : String → String} {st : RegState}
    (h : Stable slugFn st) : ensureInitialized slugFn st = .ok st := by
  obtain ⟨hnd, store, cats, hjson, hparse, hfix, hex, hcanon, halias⟩ := h
  unfold ensureInitialized
  have hseed : seedJson st = st := by
    unfold seedJson
    rw [if_pos (by rw [hjson]; rfl)]
  rw [hseed]
  show (do
    let store2 ← readStore st
    let cats2 ← parseCategories store2.categories
    let st2 ← consolidate slugFn cats2 st
    let st3 := ensureLoop cats2 st2
    normalizeAll st3) = .ok st
  unfold readStore
  rw [hjson]
  show (do
    let cats2 ← parseCategories store.categories
    let st2 ← consolidate slugFn cats2 st
    let st3 := ensureLoop cats2 st2
    normalizeAll st3) = .ok st
  rw [hparse]
  show (do
    let st2 ← consolidate slugFn cats st
    let st3 := ensureLoop cats st2
    normalizeAll st3) = .ok st
  rw [consolidate_stable_id hcanon halias]
  show normalizeAll (ensureLoop cats st) = .ok st
  rw [ensureLoop_stable hcanon hex]
  exact normalizeAll_stable hcanon

/-! ### A successful ensure_initialized leaves a stable state -/

theorem except_bind_ok {α β : Type} (a : α) (f : α → Except Err β) :
    (Except.ok a >>= f) = f a := rfl

theorem except_bind_error {α β : Type} (e : Err) (f : α → Except Err β) :
    ((Except.error e : Except Err α) >>= f) = .error e := rfl

theorem readF_none {st : RegState} {stem : String}
    (h : lookupF st stem = none) : readF st stem = .error .service := by
  unfold readF
  rw [h]

theorem readF_some {st : RegState} {stem : String} {rows : Csv}
    (h : lookupF st stem = some rows) : readF st stem = .ok rows := by
  unfold readF
  rw [h]

theorem normStep_ok_inv {st st1 : RegState} {stem : String}
    (h : normStep st stem = .ok st1) :
    ∃ rows, lookupF st stem = some rows ∧
      st1 = setF st stem (applyNormalize rows) := by
  unfold normStep at h
  cases hl : lookupF st stem with
  | none =>
    rw [readF_none hl, except_bind_error] at h
    simp at h
  | some rows =>
    rw [readF_some hl, except_bind_ok] at h
    refine ⟨rows, rfl, ?_⟩
    cases h
    rfl

theorem lookupF_setF_self (st : RegState) (s : String) (v : Csv) :
    lookupF (setF st s v) s = some v :=
  lookupL_setL_self st.files s v

theorem lookupF_setF_ne (st : RegState) {s t : String} (v : Csv) (h : t ≠ s) :
    lookupF (setF st s v) t = lookupF st t :=
  lookupL_setL_ne st.files v h

theorem lookupF_unlinkF_self (st : RegState) (s : String) :
    lookupF (unlinkF st s) s = none :=
  lookupL_unlinkL_self st.files s

theorem lookupF_unlinkF_ne (st : RegState) {s t : String} (h : t ≠ s) :
    lookupF (unlinkF st s) t = lookupF st t :=
  lookupL_unlinkL_ne st.files h

theorem keysNodup_setF {st : RegState} (s : String) (v : Csv)
    (hnd : keysNodup st) : keysNodup (setF st s v) :=
  nodup_keys_setL v hnd

theorem keysNodup_unlinkF {st : RegState} (s : String) (hnd : keysNodup st) :
    keysNodup (unlinkF st s) :=
  nodup_keys_unlinkL hnd

theorem isSome_setF {st : RegState} {t : String} (s : String) (v : Csv)
    (h : (lookupF st t).isSome) : (lookupF (setF st s v) t).isSome := by
  by_cases hts : t = s
  · rw [hts, lookupF_setF_self]; rfl
  · rw [lookupF_setF_ne st v hts]; exact h

theorem consStep_ok_cases {slugFn : String → String} {slugs : List String}
    {st st' : RegState} {stem : String}
    (h : consStep slugFn slugs st stem = .ok st') :
    ((slugs.contains (slugFn stem) = false ∨ stem = slugFn stem) ∧ st' = st) ∨
    (slugs.contains (slugFn stem) = true ∧ stem ≠ slugFn stem ∧
      ∃ rows, lookupF st stem = some rows ∧
        st' = consStepTail slugFn st stem rows) := by
  unfold consStep at h
  by_cases hmem : slugs.contains (slugFn stem) = true
  · rw [if_neg (by rw [hmem]; simp)] at h
    by_cases hself : stem = slugFn stem
    · rw [if_pos (beq_iff_eq.mpr hself)] at h
      left
      exact ⟨Or.inr hself, by cases h; rfl⟩
    · rw [if_neg (by simp [hself])] at h
      right
      refine ⟨hmem, hself, ?_⟩
      cases hns : normStep st stem with
      | error e =>
        rw [hns, except_bind_error] at h
        simp at h
      | ok st1 =>
        obtain ⟨rows, hl, hst1⟩ := normStep_ok_inv hns
        refine ⟨rows, hl, ?_⟩
        subst hst1
        rw [hns, except_bind_ok] at h
        rw [readF_some (lookupF_setF_self st stem (applyNormalize rows)),
          except_bind_ok] at h
        unfold consStepTail
        by_cases hsd :
            (((applyNormalize rows).drop 1).filter rowHasContent).isEmpty = true
        · rw [if_pos hsd] at h
          rw [if_pos hsd]
          cases h
          rfl
        · rw [if_neg hsd] at h
          rw [if_neg hsd]
          cases hlc : lookupF (setF st stem (applyNormalize rows)) (slugFn stem) with
          | none =>
            rw [hlc] at h
            cases h
            split
            · rfl
            · rename_i crows2 heq
              simp at heq
          | some crows =>
            rw [hlc] at h
            cases hns2 : normStep (setF st stem (applyNormalize rows)) (slugFn stem) with
            | error e =>
              rw [hns2, except_bind_error] at h
              simp at h
            | ok st2 =>
              obtain ⟨crows2, hlc2, hst2⟩ := normStep_ok_inv hns2
              rw [hlc] at hlc2
              cases hlc2
              subst hst2
              rw [hns2, except_bind_ok] at h
              rw [readF_some (lookupF_setF_self _ (slugFn stem) (applyNormalize crows)),
                except_bind_ok] at h
              by_cases hcd : ((applyNormalize crows).drop 1).any rowHasContent = true
              · rw [if_pos hcd] at h
                cases h
                split
                · rename_i heq
                  simp at heq
                · rename_i crows2 heq
                  cases heq
                  rw [if_pos hcd]
              · rw [if_neg hcd] at h
                cases h
                split
                · rename_i heq
                  simp at heq
                · rename_i crows2 heq
                  cases heq
                  rw [if_neg hcd]
  · have hmf : slugs.contains (slugFn stem) = false := by simpa using hmem
    rw [if_pos (by rw [hmf]; rfl)] at h
    left
    exact ⟨Or.inl hmf, by cases h; rfl⟩

theorem consStepTail_json (slugFn : String → String) (st : RegState)
    (stem : String) (rows : Csv) :
    (consStepTail slugFn st stem rows).json = st.json := by
  unfold consStepTail
  dsimp only
  split
  · rfl
  · split
    · rfl
    · split
      · rfl
      · rfl

theorem consStepTail_nodup {slugFn : String → String} {st : RegState}
    {stem : String} {rows : Csv} (hnd : keysNodup st) :
    keysNodup (consStepTail slugFn st stem rows) := by
  unfold consStepTail
  dsimp only
  split
  · exact keysNodup_unlinkF _ (keysNodup_setF _ _ hnd)
  · split
    · exact keysNodup_unlinkF _ (keysNodup_setF _ _ (keysNodup_setF _ _ hnd))
    · split
      · exact keysNodup_setF _ _ (keysNodup_setF _ _ hnd)
      · exact keysNodup_unlinkF _
          (keysNodup_setF _ _ (keysNodup_setF _ _ (keysNodup_setF _ _ hnd)))

theorem any_of_filter_not_empty {α : Type} {p : α → Bool} {l : List α}
    (h : (l.filter p).isEmpty = false) : l.any p = true := by
  cases hf : l.filter p with
  | nil => rw [hf] at h; simp at h
  | cons a as =>
    have ha : a ∈ l.filter p := by rw [hf]; exact List.mem_cons_self a as
    rcases List.mem_filter.mp ha with ⟨hal, hap⟩
    exact List.any_eq_true.mpr ⟨a, hal, hap⟩

theorem mem_of_contains {l : List String} {x : String}
    (h : l.contains x = true) : x ∈ l := by
  simpa using h

theorem strongAlias_mono {slugFn : String → String} {st R : RegState}
    {e : String × Csv} (hsa : StrongAlias slugFn st e)
    (hlook : lookupF R (slugFn e.1) = lookupF st (slugFn e.1)) :
    StrongAlias slugFn R e := by
  obtain ⟨h1, h2, crows, h3, h4, h5⟩ := hsa
  exact ⟨h1, h2, crows, by rw [hlook]; exact h3, h4, h5⟩

theorem consStepTail_isSome_ne {slugFn : String → String} {st : RegState}
    {stem s : String} {rows : Csv} (hne : s ≠ stem)
    (hs : (lookupF st s).isSome) :
    (lookupF (consStepTail slugFn st stem rows) s).isSome := by
  unfold consStepTail
  dsimp only
  split
  · rw [lookupF_unlinkF_ne _ hne]
    exact isSome_setF _ _ hs
  · split
    · rw [lookupF_unlinkF_ne _ hne]
      exact isSome_setF _ _ (isSome_setF _ _ hs)
    · split
      · exact isSome_setF _ _ (isSome_setF _ _ hs)
      · rw [lookupF_unlinkF_ne _ hne]
        exact isSome_setF _ _ (isSome_setF _ _ (isSome_setF _ _ hs))

theorem consStepTail_eq_drop {slugFn : String → String} {st : RegState}
    {stem : String} {rows : Csv}
    (hsd : (((applyNormalize rows).drop 1).filter rowHasContent).isEmpty = true) :
    consStepTail slugFn st stem rows =
      unlinkF (setF st stem (applyNormalize rows)) stem := by
  unfold consStepTail
  dsimp only
  rw [if_pos hsd]

theorem consStepTail_eq_move {slugFn : String → String} {st : RegState}
    {stem : String} {rows : Csv}
    (hsd : (((applyNormalize rows).drop 1).filter rowHasContent).isEmpty = false)
    (hlc : lookupF (setF st stem (applyNormalize rows)) (slugFn stem) = none) :
    consStepTail slugFn st stem rows =
      unlinkF (setF (setF st stem (applyNormalize rows)) (slugFn stem)
        (applyNormalize rows)) stem := by
  unfold consStepTail
  dsimp only
  rw [if_neg (by rw [hsd]; simp), hlc]

theorem consStepTail_eq_skip {slugFn : String → String} {st : RegState}
    {stem : String} {rows crows : Csv}
    (hsd : (((applyNormalize rows).drop 1).filter rowHasContent).isEmpty = false)
    (hlc : lookupF (setF st stem (applyNormalize rows)) (slugFn stem) = some crows)
    (hcd : ((applyNormalize crows).drop 1).any rowHasContent = true) :
    consStepTail slugFn st stem rows =
      setF (setF st stem (applyNormalize rows)) (slugFn stem)
        (applyNormalize crows) := by
  unfold consStepTail
  dsimp only
  rw [if_neg (by rw [hsd]; simp), hlc]
  split
  · rename_i heq
    simp at heq
  · rename_i crows2 heq
    cases heq
    rw [if_pos hcd]

theorem consStepTail_eq_merge {slugFn : String → String} {st : RegState}
    {stem : String} {rows crows : Csv}
    (hsd : (((applyNormalize rows).drop 1).filter rowHasContent).isEmpty = false)
    (hlc : lookupF (setF st stem (applyNormalize rows)) (slugFn stem) = some crows)
    (hcd : ((applyNormalize crows).drop 1).any rowHasContent = false) :
    consStepTail slugFn st stem rows =
      unlinkF (setF (setF (setF st stem (applyNormalize rows)) (slugFn stem)
          (applyNormalize crows)) (slugFn stem)
        (INVENTORY_HEADERS ::
          ((applyNormalize rows).drop 1).filter rowHasContent)) stem := by
  unfold consStepTail
  dsimp only
  rw [if_neg (by rw [hsd]; simp), hlc]
  split
  · rename_i heq
    simp at heq
  · rename_i crows2 heq
    cases heq
    rw [if_neg (by rw [hcd]; simp)]

theorem consStepTail_alias {slugFn : String → String} {slugs : List String}
    {st : RegState} {stem : String} {rows : Csv} {Done : String → Prop}
    (hnd : keysNodup st)
    (hfixslugs : ∀ t ∈ slugs, slugFn t = t)
    (hmem : slugFn stem ∈ slugs) (hne : stem ≠ slugFn stem)
    (hIH : ∀ e ∈ st.files, slugFn e.1 ∈ slugs → e.1 ≠ slugFn e.1 → Done e.1 →
      e.1 ≠ stem → StrongAlias slugFn st e) :
    ∀ e ∈ (consStepTail slugFn st stem rows).files,
      slugFn e.1 ∈ slugs → e.1 ≠ slugFn e.1 → (Done e.1 ∨ e.1 = stem) →
      StrongAlias slugFn (consStepTail slugFn st stem rows) e := by
  have hstem_not : stem ∉ slugs := fun hs => hne (hfixslugs stem hs).symm
  have hslug_ne_stem : slugFn stem ≠ stem := fun hh => hne hh.symm
  have hslug_fix : slugFn (slugFn stem) = slugFn stem := hfixslugs _ hmem
  have ht_ne_stem : ∀ t ∈ slugs, t ≠ stem := fun t ht heq => hstem_not (heq ▸ ht)
  have hnd1 : keysNodup (setF st stem (applyNormalize rows)) :=
    keysNodup_setF _ _ hnd
  by_cases hsd :
      (((applyNormalize rows).drop 1).filter rowHasContent).isEmpty = true
  · rw [consStepTail_eq_drop hsd]
    intro e he halmem halne hdone
    have he2 := mem_unlinkL.mp he
    rcases mem_setL hnd he2.1 with heq | ⟨hef, _⟩
    · exact absurd (by rw [heq]) he2.2
    · have hsa := hIH e hef halmem halne (hdone.resolve_right he2.2) he2.2
      apply strongAlias_mono hsa
      have ht : slugFn e.1 ≠ stem := ht_ne_stem _ halmem
      rw [lookupF_unlinkF_ne _ ht, lookupF_setF_ne _ _ ht]
  · have hsd2 :
        (((applyNormalize rows).drop 1).filter rowHasContent).isEmpty = false := by
      simpa using hsd
    cases hlc : lookupF (setF st stem (applyNormalize rows)) (slugFn stem) with
    | none =>
      rw [consStepTail_eq_move hsd2 hlc]
      intro e he halmem halne hdone
      have he2 := mem_unlinkL.mp he
      rcases mem_setL hnd1 he2.1 with heq | ⟨he4, henslug⟩
      · exact absurd (show e.1 = slugFn e.1 by
          rw [heq]
          exact hslug_fix.symm) halne
      · rcases mem_setL hnd he4 with heq2 | ⟨hef, _⟩
        · exact absurd (by rw [heq2]) he2.2
        · have hsa := hIH e hef halmem halne (hdone.resolve_right he2.2) he2.2
          have hstslug : lookupF st (slugFn stem) = none := by
            rw [← lookupF_setF_ne st (applyNormalize rows) hslug_ne_stem]
            exact hlc
          have htslug : slugFn e.1 ≠ slugFn stem := by
            intro hts
            obtain ⟨_, _, crows, hcl, _, _⟩ := hsa
            rw [hts, hstslug] at hcl
            simp at hcl
          have ht : slugFn e.1 ≠ stem := ht_ne_stem _ halmem
          apply strongAlias_mono hsa
          rw [lookupF_unlinkF_ne _ ht, lookupF_setF_ne _ _ htslug,
            lookupF_setF_ne _ _ ht]
    | some crows =>
      have hstslug : lookupF st (slugFn stem) = some crows := by
        rw [← lookupF_setF_ne st (applyNormalize rows) hslug_ne_stem]
        exact hlc
      by_cases hcd : ((applyNormalize crows).drop 1).any rowHasContent = true
      · rw [consStepTail_eq_skip hsd2 hlc hcd]
        intro e he halmem halne hdone
        rcases mem_setL hnd1 he with heq | ⟨he4, henslug⟩
        · exact absurd (show e.1 = slugFn e.1 by
            rw [heq]
            exact hslug_fix.symm) halne
        · rcases mem_setL hnd he4 with heq2 | ⟨hef, hens⟩
          · subst heq2
            refine ⟨isCanonicalForm_applyNormalize rows, ?_,
              applyNormalize crows, ?_, isCanonicalForm_applyNormalize crows, hcd⟩
            · exact any_of_filter_not_empty hsd2
            · show lookupF _ (slugFn stem) = _
              rw [lookupF_setF_self]
          · have hsa := hIH e hef halmem halne (hdone.resolve_right hens) hens
            by_cases hts : slugFn e.1 = slugFn stem
            · obtain ⟨h1, h2, crows2, hcl, hcc, hcd2⟩ := hsa
              rw [hts, hstslug] at hcl
              cases hcl
              refine ⟨h1, h2, applyNormalize crows, ?_,
                isCanonicalForm_applyNormalize crows, hcd⟩
              rw [hts]
              exact lookupF_setF_self _ _ _
            · have ht : slugFn e.1 ≠ stem := ht_ne_stem _ halmem
              apply strongAlias_mono hsa
              rw [lookupF_setF_ne _ _ hts, lookupF_setF_ne _ _ ht]
      · have hcd2 : ((applyNormalize crows).drop 1).any rowHasContent = false := by
          simpa using hcd
        rw [consStepTail_eq_merge hsd2 hlc hcd2]
        intro e he halmem halne hdone
        have hnd2 : keysNodup (setF (setF st stem (applyNormalize rows))
            (slugFn stem) (applyNormalize crows)) :=
          keysNodup_setF _ _ hnd1
        have he2 := mem_unlinkL.mp he
        rcases mem_setL hnd2 he2.1 with heq | ⟨he4, henslug⟩
        · exact absurd (show e.1 = slugFn e.1 by
            rw [heq]
            exact hslug_fix.symm) halne
        · rcases mem_setL hnd1 he4 with heq2 | ⟨he5, _⟩
          · exact absurd (by rw [heq2]) henslug
          · rcases mem_setL hnd he5 with heq3 | ⟨hef, _⟩
            · exact absurd (by rw [heq3]) he2.2
            · have hsa := hIH e hef halmem halne (hdone.resolve_right he2.2) he2.2
              have htslug : slugFn e.1 ≠ slugFn stem := by
                intro hts
                obtain ⟨_, _, crows2, hcl, hcc, hcd3⟩ := hsa
                rw [hts, hstslug] at hcl
                cases hcl
                rw [applyNormalize_of_canonical hcc] at hcd2
                have hcd4 : (crows.drop 1).any rowHasContent = true := hcd3
                rw [hcd4] at hcd2
                simp at hcd2
              have ht : slugFn e.1 ≠ stem := ht_ne_stem _ halmem
              apply strongAlias_mono hsa
              rw [lookupF_unlinkF_ne _ ht, lookupF_setF_ne _ _ htslug,
                lookupF_setF_ne _ _ htslug, lookupF_setF_ne _ _ ht]

theorem contains_of_mem {l : List String} {x : String} (h : x ∈ l) :
    l.contains x = true := by
  simpa using h

theorem not_mem_of_contains_false {l : List String} {x : String}
    (h : l.contains x = false) : x ∉ l := by
  intro hm
  rw [contains_of_mem hm] at h
  cases h

theorem consolidate_go {slugFn : String → String} {slugs : List String}
    {l : List String} {st st' : RegState}
    (hfixslugs : ∀ t ∈ slugs, slugFn t = t)
    (hnd : keysNodup st) (hlnd : l.Nodup)
    (hex : ∀ s ∈ l, (lookupF st s).isSome)
    (hinv : ∀ e ∈ st.files, slugFn e.1 ∈ slugs → e.1 ≠ slugFn e.1 → e.1 ∉ l →
      StrongAlias slugFn st e)
    (h : l.foldlM (consStep slugFn slugs) st = .ok st') :
    keysNodup st' ∧ st'.json = st.json ∧
      ∀ e ∈ st'.files, slugFn e.1 ∈ slugs → e.1 ≠ slugFn e.1 →
        StrongAlias slugFn st' e := by
  induction l generalizing st with
  | nil =>
    cases h
    exact ⟨hnd, rfl, fun e he h1 h2 => hinv e he h1 h2 (by simp)⟩
  | cons s l ih =>
    rw [List.foldlM_cons] at h
    cases hcs : consStep slugFn slugs st s with
    | error e =>
      rw [hcs, except_bind_error] at h
      simp at h
    | ok s2 =>
      rw [hcs, except_bind_ok] at h
      have hlnd2 : s ∉ l ∧ l.Nodup := List.nodup_cons.mp hlnd
      rcases consStep_ok_cases hcs with ⟨hreason, hid⟩ |
        ⟨hmemc, hnec, rows, hrows, htail⟩
      · subst hid
        apply ih hnd hlnd2.2 (fun x hx => hex x (List.mem_cons_of_mem s hx)) ?_ h
        intro e he h1 h2 h3
        by_cases hes : e.1 = s
        · rcases hreason with hr | hr
          · exact absurd (hes ▸ h1) (not_mem_of_contains_false hr)
          · exact absurd (show e.1 = slugFn e.1 by rw [hes]; exact hr) h2
        · exact hinv e he h1 h2
            (fun hmm => (List.mem_cons.mp hmm).elim hes h3)
      · subst htail
        have hmems : slugFn s ∈ slugs := mem_of_contains hmemc
        have hex2 : ∀ x ∈ l, (lookupF (consStepTail slugFn st s rows) x).isSome := by
          intro x hx
          exact consStepTail_isSome_ne (fun hxs => hlnd2.1 (hxs ▸ hx))
            (hex x (List.mem_cons_of_mem s hx))
        have hinv2 : ∀ e ∈ (consStepTail slugFn st s rows).files,
            slugFn e.1 ∈ slugs → e.1 ≠ slugFn e.1 → e.1 ∉ l →
            StrongAlias slugFn (consStepTail slugFn st s rows) e := by
          intro e he h1 h2 h3
          apply @consStepTail_alias slugFn slugs st s rows (fun t => t ∉ s :: l)
            hnd hfixslugs hmems hnec ?_ e he h1 h2 ?_
          · intro e2 he2 g1 g2 g3 _
            exact hinv e2 he2 g1 g2 g3
          · by_cases hes : e.1 = s
            · exact Or.inr hes
            · exact Or.inl (fun hmm => (List.mem_cons.mp hmm).elim hes h3)
        have hres := ih (consStepTail_nodup hnd) hlnd2.2 hex2 hinv2 h
        exact ⟨hres.1, by rw [hres.2.1, consStepTail_json], hres.2.2⟩

theorem normStep_alias_preserve {slugFn : String → String} {slugs : List String}
    {st st2 : RegState} {stem : String}
    (hnd : keysNodup st)
    (halias : ∀ e ∈ st.files, slugFn e.1 ∈ slugs → e.1 ≠ slugFn e.1 →
      StrongAlias slugFn st e)
    (h : normStep st stem = .ok st2) :
    ∀ e ∈ st2.files, slugFn e.1 ∈ slugs → e.1 ≠ slugFn e.1 →
      StrongAlias slugFn st2 e := by
  obtain ⟨rows, hl, hs2⟩ := normStep_ok_inv h
  subst hs2
  intro e he h1 h2
  rcases mem_setL hnd he with heq | ⟨hef, hens⟩
  · subst heq
    have hold := halias (stem, rows) (mem_of_lookupL_eq_some hl) h1 h2
    obtain ⟨hc, hd, crows, hcl, hcc, hcd⟩ := hold
    have hnorm : applyNormalize rows = rows := applyNormalize_of_canonical hc
    rw [hnorm]
    refine ⟨hc, hd, crows, ?_, hcc, hcd⟩
    show lookupF (setF st stem rows) (slugFn stem) = some crows
    rw [lookupF_setF_ne _ _ (Ne.symm h2)]
    exact hcl
  · have hold := halias e hef h1 h2
    apply strongAlias_mono hold
    by_cases ht : slugFn e.1 = stem
    · obtain ⟨_, _, crows, hcl, hcc, _⟩ := hold
      rw [ht] at hcl
      rw [hl] at hcl
      cases hcl
      rw [ht, lookupF_setF_self, applyNormalize_of_canonical hcc, hl]
    · rw [lookupF_setF_ne _ _ ht]

theorem normalizeAll_go {slugFn : String → String} {slugs : List String}
    {st st' : RegState} {l : List String}
    (hnd : keysNodup st)
    (halias : ∀ e ∈ st.files, slugFn e.1 ∈ slugs → e.1 ≠ slugFn e.1 →
      StrongAlias slugFn st e)
    (hcanon : ∀ e ∈ st.files, e.1 ∉ l → isCanonicalForm e.2 = true)
    (h : l.foldlM normStep st = .ok st') :
    keysNodup st' ∧ st'.json = st.json ∧
      (∀ e ∈ st'.files, isCanonicalForm e.2 = true) ∧
      (∀ x, (lookupF st x).isSome → (lookupF st' x).isSome) ∧
      (∀ e ∈ st'.files, slugFn e.1 ∈ slugs → e.1 ≠ slugFn e.1 →
        StrongAlias slugFn st' e) := by
  induction l generalizing st with
  | nil =>
    cases h
    exact ⟨hnd, rfl, fun e he => hcanon e he (by simp), fun x hx => hx, halias⟩
  | cons s l ih =>
    rw [List.foldlM_cons] at h
    cases hns : normStep st s with
    | error e =>
      rw [hns, except_bind_error] at h
      simp at h
    | ok s2 =>
      rw [hns, except_bind_ok] at h
      obtain ⟨rows, hl, hs2⟩ := normStep_ok_inv hns
      have halias2 := normStep_alias_preserve hnd halias hns
      have hnd2 : keysNodup s2 := by
        rw [hs2]
        exact keysNodup_setF _ _ hnd
      have hcanon2 : ∀ e ∈ s2.files, e.1 ∉ l → isCanonicalForm e.2 = true := by
        intro e he hel
        rw [hs2] at he
        rcases mem_setL hnd he with heq | ⟨hef, hens⟩
        · rw [heq]
          exact isCanonicalForm_applyNormalize rows
        · exact hcanon e hef (fun hmm => (List.mem_cons.mp hmm).elim hens hel)
      obtain ⟨g1, g2, g3, g4, g5⟩ := ih hnd2 halias2 hcanon2 h
      refine ⟨g1, by rw [g2, hs2]; rfl, g3, ?_, g5⟩
      intro x hx
      apply g4
      rw [hs2]
      exact isSome_setF _ _ hx

theorem ensureCategoryCsv_json (st : RegState) (slug : String) :
    (ensureCategoryCsv st slug).json = st.json := by
  unfold ensureCategoryCsv
  cases lookupF st slug
  · rfl
  · rfl

theorem ensureCategoryCsv_nodup {st : RegState} (slug : String)
    (hnd : keysNodup st) : keysNodup (ensureCategoryCsv st slug) := by
  unfold ensureCategoryCsv
  cases lookupF st slug
  · exact keysNodup_setF _ _ hnd
  · exact keysNodup_setF _ _ hnd

theorem ensureCategoryCsv_isSome_self (st : RegState) (slug : String) :
    (lookupF (ensureCategoryCsv st slug) slug).isSome := by
  unfold ensureCategoryCsv
  cases lookupF st slug
  · rw [lookupF_setF_self]; rfl
  · rw [lookupF_setF_self]; rfl

theorem ensureCategoryCsv_isSome_mono {st : RegState} {x : String}
    (slug : String) (h : (lookupF st x).isSome) :
    (lookupF (ensureCategoryCsv st slug) x).isSome := by
  unfold ensureCategoryCsv
  cases lookupF st slug
  · exact isSome_setF _ _ h
  · exact isSome_setF _ _ h

theorem ensureCategoryCsv_alias_preserve {slugFn : String → String}
    {slugs : List String} {st : RegState} {slug : String}
    (hfixslug : slugFn slug = slug)
    (hnd : keysNodup st)
    (halias : ∀ e ∈ st.files, slugFn e.1 ∈ slugs → e.1 ≠ slugFn e.1 →
      StrongAlias slugFn st e) :
    ∀ e ∈ (ensureCategoryCsv st slug).files,
      slugFn e.1 ∈ slugs → e.1 ≠ slugFn e.1 →
      StrongAlias slugFn (ensureCategoryCsv st slug) e := by
  intro e he h1 h2
  unfold ensureCategoryCsv at he ⊢
  cases hls : lookupF st slug with
  | none =>
    show StrongAlias slugFn (setF st slug [INVENTORY_HEADERS]) e
    rw [hls] at he
    rcases mem_setL hnd he with heq | ⟨hef, hens⟩
    · exact absurd (show e.1 = slugFn e.1 by rw [heq]; exact hfixslug.symm) h2
    · have hold := halias e hef h1 h2
      apply strongAlias_mono hold
      by_cases ht : slugFn e.1 = slug
      · obtain ⟨_, _, crows, hcl, _, _⟩ := hold
        rw [ht, hls] at hcl
        simp at hcl
      · rw [lookupF_setF_ne _ _ ht]
  | some rows =>
    show StrongAlias slugFn (setF st slug (applyNormalize rows)) e
    rw [hls] at he
    rcases mem_setL hnd he with heq | ⟨hef, hens⟩
    · exact absurd (show e.1 = slugFn e.1 by rw [heq]; exact hfixslug.symm) h2
    · have hold := halias e hef h1 h2
      apply strongAlias_mono hold
      by_cases ht : slugFn e.1 = slug
      · obtain ⟨_, _, crows, hcl, hcc, _⟩ := hold
        rw [ht, hls] at hcl
        cases hcl
        rw [ht, lookupF_setF_self, applyNormalize_of_canonical hcc, hls]
      · rw [lookupF_setF_ne _ _ ht]

theorem ensureLoop_go {slugFn : String → String} {slugs : List String}
    {cats : List Category} {st : RegState}
    (hsub : ∀ c ∈ cats, c.slug ∈ slugs)
    (hfixslugs : ∀ t ∈ slugs, slugFn t = t)
    (hnd : keysNodup st)
    (halias : ∀ e ∈ st.files, slugFn e.1 ∈ slugs → e.1 ≠ slugFn e.1 →
      StrongAlias slugFn st e) :
    keysNodup (ensureLoop cats st) ∧
      (ensureLoop cats st).json = st.json ∧
      (∀ x, (lookupF st x).isSome → (lookupF (ensureLoop cats st) x).isSome) ∧
      (∀ c ∈ cats, (lookupF (ensureLoop cats st) c.slug).isSome) ∧
      (∀ e ∈ (ensureLoop cats st).files, slugFn e.1 ∈ slugs →
        e.1 ≠ slugFn e.1 → StrongAlias slugFn (ensureLoop cats st) e) := by
  induction cats generalizing st with
  | nil => exact ⟨hnd, rfl, fun x hx => hx, by simp, halias⟩
  | cons c cats ih =>
    have hstep : ensureLoop (c :: cats) st =
        ensureLoop cats (ensureCategoryCsv st c.slug) := rfl
    rw [hstep]
    have hnd2 := ensureCategoryCsv_nodup c.slug hnd
    have halias2 := ensureCategoryCsv_alias_preserve
      (hfixslugs c.slug (hsub c (List.mem_cons_self c cats))) hnd halias
    obtain ⟨g1, g2, g3, g4, g5⟩ :=
      ih (fun x hx => hsub x (List.mem_cons_of_mem c hx)) hnd2 halias2
    refine ⟨g1, by rw [g2, ensureCategoryCsv_json], ?_, ?_, g5⟩
    · intro x hx
      exact g3 x (ensureCategoryCsv_isSome_mono c.slug hx)
    · intro c2 hc2
      rcases List.mem_cons.mp hc2 with heq | hmm
      · subst heq
        exact g3 c2.slug (ensureCategoryCsv_isSome_self st c2.slug)
      · exact g4 c2 hmm

theorem seedJson_files (st : RegState) : (seedJson st).files = st.files := by
  unfold seedJson
  split
  · rfl
  · rfl

theorem seedJson_json_isSome (st : RegState) : (seedJson st).json.isSome := by
  unfold seedJson
  split
  · rename_i hs
    exact hs
  · rfl

theorem stable_of_ensure {slugFn : String → String} {st0 st1 : RegState}
    (hnd : keysNodup st0)
    (hfix : ∀ store cats, (seedJson st0).json = some store →
      parseCategories store.categories = .ok cats →
      ∀ c ∈ cats, slugFn c.slug = c.slug)
    (h : ensureInitialized slugFn st0 = .ok st1) : Stable slugFn st1 := by
  unfold ensureInitialized at h
  dsimp only at h
  cases hjs : (seedJson st0).json with
  | none =>
    have := seedJson_json_isSome st0
    rw [hjs] at this
    cases this
  | some store =>
    have hrs : readStore (seedJson st0) = .ok store := by
      unfold readStore
      rw [hjs]
    rw [hrs, except_bind_ok] at h
    cases hparse : parseCategories store.categories with
    | error e =>
      rw [hparse, except_bind_error] at h
      simp at h
    | ok cats =>
      rw [hparse, except_bind_ok] at h
      cases hcons : consolidate slugFn cats (seedJson st0) with
      | error e =>
        rw [hcons, except_bind_error] at h
        simp at h
      | ok stB =>
        rw [hcons, except_bind_ok] at h
        have hfix2 : ∀ c ∈ cats, slugFn c.slug = c.slug :=
          hfix store cats hjs hparse
        have hfixslugs : ∀ t ∈ cats.map (fun c => c.slug), slugFn t = t := by
          intro t ht
          rcases List.mem_map.mp ht with ⟨c, hc, hcs⟩
          rw [← hcs]
          exact hfix2 c hc
        have hndseed : keysNodup (seedJson st0) := by
          unfold keysNodup
          rw [seedJson_files]
          exact hnd
        unfold consolidate at hcons
        have hcons_res := consolidate_go hfixslugs hndseed
          (nodup_sortBy.mpr hndseed)
          (fun s hs => by
            rcases List.mem_map.mp (mem_sortBy.mp hs) with ⟨e, he, hes⟩
            exact lookupL_isSome_iff.mpr ⟨e, he, hes⟩)
          (fun e he _ _ habs =>
            absurd (mem_sortBy.mpr (List.mem_map_of_mem Prod.fst he)) habs)
          hcons
        obtain ⟨hndB, hjsonB, haliasB⟩ := hcons_res
        have hloop := @ensureLoop_go slugFn (cats.map (fun c => c.slug)) cats stB
          (fun c hc => List.mem_map_of_mem (fun c => c.slug) hc)
          hfixslugs hndB haliasB
        obtain ⟨hndC, hjsonC, hmonoC, hexC, haliasC⟩ := hloop
        unfold normalizeAll at h
        have hnorm := normalizeAll_go hndC haliasC
          (fun e he habs =>
            absurd (mem_sortBy.mpr (List.mem_map_of_mem Prod.fst he)) habs)
          h
        obtain ⟨hnd1, hjson1, hcanon1, hmono1, halias1⟩ := hnorm
        refine ⟨hnd1, store, cats, ?_, hparse, hfix2, ?_, hcanon1, ?_⟩
        · rw [hjson1, hjsonC, hjsonB, hjs]
        · intro c hc
          exact hmono1 c.slug (hexC c hc)
        · intro e he h1 h2
          obtain ⟨_, hd, crows, hcl, _, hcd⟩ := halias1 e he h1 h2
          exact ⟨hd, crows, hcl, hcd⟩

/-! ### Lemmas about get_next_id -/

theorem stable_parts {slugFn : String → String} {st : RegState}
    {store : CatStore} {cats : List Category} (hst : Stable slugFn st)
    (hjson : st.json = some store)
    (hparse : parseCategories store.categories = .ok cats) :
    keysNodup st ∧ (∀ c ∈ cats, (lookupF st c.slug).isSome) ∧
      (∀ e ∈ st.files, isCanonicalForm e.2 = true) := by
  obtain ⟨hnd, store2, cats2, hj2, hp2, _, hex, hcanon, _⟩ := hst
  rw [hjson] at hj2
  cases hj2
  rw [hparse] at hp2
  cases hp2
  exact ⟨hnd, hex, hcanon⟩

theorem listCategories_of_stable {slugFn : String → String} {st : RegState}
    {store : CatStore} {cats : List Category} (hst : Stable slugFn st)
    (hjson : st.json = some store)
    (hparse : parseCategories store.categories = .ok cats) :
    listCategories slugFn st =
      .ok (sortBy (fun a b => decide (a.code ≤ b.code)) cats, st) := by
  unfold listCategories
  rw [ensureInitialized_of_stable hst, except_bind_ok]
  rw [show readStore st = .ok store by unfold readStore; rw [hjson],
    except_bind_ok]
  rw [hparse, except_bind_ok]
  rfl

theorem pyMaxByKey_go {key : String → Except Err Nat} :
    ∀ (xs : List String) (ks : List Nat) (b : String) (kb : Nat),
    key b = .ok kb →
    List.Forall₂ (fun v n => key v = .ok n) xs ks →
    ∃ m : String × Nat,
      (xs.foldlM (fun best y => do
          let ky ← key y
          if best.2 < ky then pure (y, ky) else pure best) (b, kb)) = .ok m ∧
      key m.1 = .ok m.2 ∧ m.2 = ks.foldl max kb := by
  intro xs
  induction xs with
  | nil =>
    intro ks b kb hb hf
    cases hf
    exact ⟨(b, kb), rfl, hb, rfl⟩
  | cons y ys ih =>
    intro ks b kb hb hf
    cases hf with
    | cons hy hys =>
      rename_i ky kys
      rw [List.foldlM_cons, hy, except_bind_ok]
      by_cases hlt : kb < ky
      · rw [if_pos hlt]
        obtain ⟨m, hm, hk, hmx⟩ := ih kys y ky hy hys
        refine ⟨m, ?_, hk, ?_⟩
        · rw [show (pure (y, ky) : Except Err (String × Nat)) = Except.ok (y, ky)
            from rfl, except_bind_ok]
          exact hm
        · rw [List.foldl_cons, Nat.max_eq_right (Nat.le_of_lt hlt)]
          exact hmx
      · rw [if_neg hlt]
        obtain ⟨m, hm, hk, hmx⟩ := ih kys b kb hb hys
        refine ⟨m, ?_, hk, ?_⟩
        · rw [show (pure (b, kb) : Except Err (String × Nat)) = Except.ok (b, kb)
            from rfl, except_bind_ok]
          exact hm
        · rw [List.foldl_cons, Nat.max_eq_left (Nat.le_of_not_lt hlt)]
          exact hmx

theorem pyMaxByKey_spec {key : String → Except Err Nat} {x : String}
    {xs : List String} {k0 : Nat} {ks : List Nat}
    (h0 : key x = .ok k0)
    (hs : List.Forall₂ (fun v n => key v = .ok n) xs ks) :
    ∃ m : String × Nat, pyMaxByKey key x xs = .ok m.1 ∧
      key m.1 = .ok m.2 ∧ m.2 = ks.foldl max k0 := by
  obtain ⟨m, hm, hkm, hmax⟩ := pyMaxByKey_go xs ks x k0 h0 hs
  refine ⟨m, ?_, hkm, hmax⟩
  unfold pyMaxByKey
  rw [h0, except_bind_ok, hm, except_bind_ok]
  rfl

theorem filterMap_map_id {α β : Type} (f : α → Option β) (l : List α) :
    (l.map f).filterMap id = l.filterMap f := by
  induction l with
  | nil => rfl
  | cons a l ih =>
    cases ha : f a <;> simp [List.filterMap_cons, ha, ih]

theorem getNextIdValue_spec {code : Int} {files : List Csv} {seqs : List Nat}
    (hseqs : List.Forall₂ (fun v n => extractSequenceFromTail v = .ok n)
      (files.filterMap readLastRegisteredId) seqs)
    (hle : (if seqs.isEmpty then 0 else seqs.foldl max 0 + 1) ≤ 999) :
    getNextIdValue code files =
      .ok ("7809990" ++ pyFmtInt 2 code ++
        pyFmtNat 3 (if seqs.isEmpty then 0 else seqs.foldl max 0 + 1)) := by
  unfold getNextIdValue
  dsimp only
  rw [filterMap_map_id]
  cases hfm : files.filterMap readLastRegisteredId with
  | nil =>
    rw [hfm] at hseqs
    cases hseqs
    rfl
  | cons x xs =>
    rw [hfm] at hseqs
    cases hseqs with
    | cons h0 hys =>
      rename_i k0 kys
      obtain ⟨m, hm, hkm, hmax⟩ := pyMaxByKey_spec h0 hys
      show (do
        let lastId ← pyMaxByKey extractSequenceFromTail x xs
        let s ← extractSequenceFromTail lastId
        let y ← pure (s + 1)
        if y > 999 then Except.error Err.service
        else pure ("7809990" ++ pyFmtInt 2 code ++ pyFmtNat 3 y)) =
        Except.ok ("7809990" ++ pyFmtInt 2 code ++
          pyFmtNat 3 (if (k0 :: kys).isEmpty = true then 0
            else List.foldl max 0 (k0 :: kys) + 1))
      rw [hm, except_bind_ok, hkm, except_bind_ok,
        show (pure (m.2 + 1) : Except Err Nat) = Except.ok (m.2 + 1) from rfl,
        except_bind_ok, hmax]
      have hfold : List.foldl max 0 (k0 :: kys) = List.foldl max k0 kys := by
        simp [List.foldl_cons]
      have hle2 : List.foldl max k0 kys + 1 ≤ 999 := by
        rw [if_neg (by simp)] at hle
        rwa [hfold] at hle
      rw [if_neg (by simp : ¬((k0 :: kys).isEmpty = true))]
      rw [hfold]
      rw [if_neg (by omega : ¬(List.foldl max k0 kys + 1 > 999))]
      rfl

theorem getNextIdValue_ceiling {code : Int} {files : List Csv}
    {seqs : List Nat}
    (hseqs : List.Forall₂ (fun v n => extractSequenceFromTail v = .ok n)
      (files.filterMap readLastRegisteredId) seqs)
    (hne : seqs ≠ [])
    (hmax999 : seqs.foldl max 0 = 999) :
    getNextIdValue code files = .error .service := by
  unfold getNextIdValue
  dsimp only
  rw [filterMap_map_id]
  cases hfm : files.filterMap readLastRegisteredId with
  | nil =>
    rw [hfm] at hseqs
    cases hseqs
    exact absurd rfl hne
  | cons x xs =>
    rw [hfm] at hseqs
    cases hseqs with
    | cons h0 hys =>
      rename_i k0 kys
      obtain ⟨m, hm, hkm, hmax⟩ := pyMaxByKey_spec h0 hys
      show (do
        let lastId ← pyMaxByKey extractSequenceFromTail x xs
        let s ← extractSequenceFromTail lastId
        let y ← pure (s + 1)
        if y > 999 then Except.error Err.service
        else pure ("7809990" ++ pyFmtInt 2 code ++ pyFmtNat 3 y)) =
        Except.error Err.service
      rw [hm, except_bind_ok, hkm, except_bind_ok,
        show (pure (m.2 + 1) : Except Err Nat) = Except.ok (m.2 + 1) from rfl,
        except_bind_ok, hmax]
      have hfold : List.foldl max 0 (k0 :: kys) = List.foldl max k0 kys := by
        simp [List.foldl_cons]
      rw [hfold] at hmax999
      rw [hmax999]
      rfl

set_option maxRecDepth 4000 in
theorem pyFmtNat_len2 : ∀ n, n < 100 → (pyFmtNat 2 n).length = 2 := by
  decide

set_option maxRecDepth 40000 in
theorem pyFmtNat_len3 : ∀ n, n < 1000 → (pyFmtNat 3 n).length = 3 := by
  decide

theorem getCategory_of_stable {slugFn : String → String} {st : RegState}
    {slug : String} {store : CatStore} {cats : List Category} {cat : Category}
    (hst : Stable slugFn st)
    (hjson : st.json = some store)
    (hparse : parseCategories store.categories = .ok cats)
    (hfind : (sortBy (fun a b => decide (a.code ≤ b.code)) cats).find?
      (fun c => c.slug == pyNormalizeSlug slug
        (sortBy (fun a b => decide (a.code ≤ b.code)) cats)) = some cat) :
    getCategory slugFn st slug = .ok (cat, st) := by
  unfold getCategory
  rw [listCategories_of_stable hst hjson hparse, except_bind_ok]
  dsimp only
  rw [hfind]
  rfl

theorem getNextId_of_stable {slugFn : String → String} {st : RegState}
    {slug : String} {store : CatStore} {cats : List Category} {cat : Category}
    (hst : Stable slugFn st)
    (hjson : st.json = some store)
    (hparse : parseCategories store.categories = .ok cats)
    (hfind : (sortBy (fun a b => decide (a.code ≤ b.code)) cats).find?
      (fun c => c.slug == pyNormalizeSlug slug
        (sortBy (fun a b => decide (a.code ≤ b.code)) cats)) = some cat) :
    getNextId slugFn st slug = (do
      let files ← (categoryReadPaths st cat.slug).mapM (readF st)
      let v ← getNextIdValue cat.code files
      pure (v, st)) := by
  unfold getNextId
  rw [getCategory_of_stable hst hjson hparse hfind, except_bind_ok]
  dsimp only
  have hcat_mem : cat ∈ cats :=
    (perm_sortBy _ cats).mem_iff.mp (List.mem_of_find?_eq_some hfind)
  obtain ⟨hnd, hex, hcanon⟩ := stable_parts hst hjson hparse
  rw [ensureCategoryCsv_stable hcanon (hex cat hcat_mem)]

theorem getNextId_stable_state {slugFn : String → String} {st st2 : RegState}
    {slug v : String} (hst : Stable slugFn st)
    (h : getNextId slugFn st slug = .ok (v, st2)) : st2 = st := by
  obtain ⟨-, store, cats, hjson, hparse, -, -, -, -⟩ := id hst
  cases hfind : (sortBy (fun a b => decide (a.code ≤ b.code)) cats).find?
      (fun c => c.slug == pyNormalizeSlug slug
        (sortBy (fun a b => decide (a.code ≤ b.code)) cats)) with
  | none =>
    have hgc : getCategory slugFn st slug = .error .validation := by
      unfold getCategory
      rw [listCategories_of_stable hst hjson hparse, except_bind_ok]
      dsimp only
      rw [hfind]
    unfold getNextId at h
    rw [hgc, except_bind_error] at h
    simp at h
  | some cat =>
    rw [getNextId_of_stable hst hjson hparse hfind] at h
    cases hm : (categoryReadPaths st cat.slug).mapM (readF st) with
    | error e =>
      rw [hm, except_bind_error] at h
      simp at h
    | ok files =>
      rw [hm, except_bind_ok] at h
      cases hv : getNextIdValue cat.code files with
      | error e =>
        rw [hv, except_bind_error] at h
        simp at h
      | ok v2 =>
        rw [hv, except_bind_ok] at h
        cases h
        rfl

theorem pyFmtInt_nonneg {i : Int} (w : Nat) (h : 0 ≤ i) :
    pyFmtInt w i = pyFmtNat w i.toNat := by
  unfold pyFmtInt
  rw [if_neg (by omega)]

/-! ### Lemmas about stripping and digits -/

theorem dropWhile_dropWhile {α : Type} (p : α → Bool) (l : List α) :
    (l.dropWhile p).dropWhile p = l.dropWhile p := by
  induction l with
  | nil => rfl
  | cons a l ih =>
    by_cases ha : p a = true
    · rw [List.dropWhile_cons_of_pos ha, ih]
    · rw [List.dropWhile_cons_of_neg (by simp [ha]),
        List.dropWhile_cons_of_neg (by simp [ha])]

theorem dropWhile_head_false {α : Type} {p : α → Bool} {l t : List α} {x : α}
    (h : l.dropWhile p = x :: t) : p x = false := by
  induction l with
  | nil => simp at h
  | cons a l ih =>
    by_cases ha : p a = true
    · rw [List.dropWhile_cons_of_pos ha] at h
      exact ih h
    · rw [List.dropWhile_cons_of_neg (by simp [ha])] at h
      cases h
      simpa using ha

theorem dropWhile_of_head_false {α : Type} {p : α → Bool} {x : α} {t : List α}
    (h : p x = false) : (x :: t).dropWhile p = x :: t :=
  List.dropWhile_cons_of_neg (by simp [h])

theorem stripL_idem (w : Char → Bool) (l : List Char) :
    ((((((l.dropWhile w).reverse.dropWhile w).reverse).dropWhile
      w).reverse.dropWhile w).reverse) =
    ((l.dropWhile w).reverse.dropWhile w).reverse := by
  set A := l.dropWhile w with hA
  set B := A.reverse.dropWhile w with hB
  obtain ⟨t, ht⟩ : ∃ t, t ++ B = A.reverse := List.dropWhile_suffix w
  have hdropB : B.reverse.dropWhile w = B.reverse := by
    cases hBr : B.reverse with
    | nil => rfl
    | cons x xs =>
      have hxA : A = x :: (xs ++ t.reverse) := by
        have : A = B.reverse ++ t.reverse := by
          rw [← List.reverse_reverse A, ← ht]
          simp
        rw [this, hBr]
        simp
      have hwx : w x = false := dropWhile_head_false (hA.symm ▸ hxA)
      rw [hBr] at *
      exact dropWhile_of_head_false hwx
  rw [hdropB, List.reverse_reverse, dropWhile_dropWhile]

theorem pyStrip_idem (s : String) : pyStrip (pyStrip s) = pyStrip s := by
  unfold pyStrip
  rw [String.data]
  exact congrArg String.mk (stripL_idem Char.isWhitespace s.data)

theorem digit_not_ws {c : Char} (h : c.isDigit = true) :
    c.isWhitespace = false := by
  cases hw : c.isWhitespace
  · rfl
  · exfalso
    have hw2 := hw
    simp [Char.isWhitespace] at hw2
    rcases hw2 with ((h1 | h1) | h1) | h1 <;> subst h1 <;>
      exact absurd h (by decide)

theorem dropWhile_ws_of_digits {l : List Char}
    (h : ∀ c ∈ l, c.isDigit = true) : l.dropWhile Char.isWhitespace = l := by
  cases l with
  | nil => rfl
  | cons a t =>
    exact dropWhile_of_head_false (digit_not_ws (h a (List.mem_cons_self a t)))

theorem pyStrip_of_digits {s : String}
    (h : ∀ c ∈ s.data, c.isDigit = true) : pyStrip s = s := by
  unfold pyStrip
  rw [dropWhile_ws_of_digits h]
  rw [dropWhile_ws_of_digits (fun c hc => h c (List.mem_reverse.mp hc))]
  rw [List.reverse_reverse]

/-! ### Lemmas about the EAN-13 helpers -/

theorem ean13_error_iff (b : String) :
    ean13CheckDigit b = .error .service ↔
      ¬((pyStrip b).length = 12 ∧ (pyStrip b).data.all Char.isDigit = true) := by
  have hlen : (pyStrip b).length = (pyStrip b).data.length := rfl
  unfold ean13CheckDigit pyIsDigit
  by_cases h12 : (pyStrip b).length = 12
  · have hne : (pyStrip b).data.isEmpty = false := by
      cases hd : (pyStrip b).data with
      | nil =>
        rw [hlen, hd] at h12
        simp at h12
      | cons x xs => rfl
    by_cases hall : (pyStrip b).data.all Char.isDigit = true
    · rw [if_neg (by simp [h12, hne, hall])]
      constructor
      · intro hcontra
        exact absurd hcontra (by simp)
      · intro hcontra
        exact absurd ⟨h12, hall⟩ hcontra
    · rw [if_pos (by simp [hall])]
      constructor
      · intro _ hpair
        exact hall hpair.2
      · intro _
        rfl
  · rw [if_pos (by simp [h12])]
    constructor
    · intro _ hpair
      exact h12 hpair.1
    · intro _
      rfl

theorem ean13_ok_inv {b v : String} (h : ean13CheckDigit b = .ok v) :
    ∃ d, d < 10 ∧ v = Nat.repr d := by
  unfold ean13CheckDigit at h
  dsimp only at h
  split at h
  · simp at h
  · cases h
    exact ⟨_, Nat.mod_lt _ (by omega), rfl⟩

theorem natRepr_len1 : ∀ d, d < 10 → (Nat.repr d).length = 1 := by
  decide

theorem ean13_ok_valid {b v : String} (h : ean13CheckDigit b = .ok v) :
    (pyStrip b).length = 12 ∧ (pyStrip b).data.all Char.isDigit = true := by
  by_contra hc
  rw [(ean13_error_iff b).mpr hc] at h
  simp at h

theorem ean13_strip (b : String) :
    ean13CheckDigit (pyStrip b) = ean13CheckDigit b := by
  unfold ean13CheckDigit
  rw [pyStrip_idem]

theorem buildBarcode_of_ok {b v : String} (h : ean13CheckDigit b = .ok v) :
    buildBarcode b = .ok (pyStrip b ++ v) := by
  unfold buildBarcode
  dsimp only
  rw [ean13_strip, h, except_bind_ok]
  rfl

theorem ean13_value (b : String)
    (c0 c1 c2 c3 c4 c5 c6 c7 c8 c9 c10 c11 : Char)
    (hd : (pyStrip b).data = [c0, c1, c2, c3, c4, c5, c6, c7, c8, c9, c10, c11])
    (hall : (pyStrip b).data.all Char.isDigit = true) :
    ean13CheckDigit b = .ok (Nat.repr ((10 -
      (((c0.toNat - 48) + (c2.toNat - 48) + (c4.toNat - 48) + (c6.toNat - 48) +
        (c8.toNat - 48) + (c10.toNat - 48)) +
       3 * ((c1.toNat - 48) + (c3.toNat - 48) + (c5.toNat - 48) +
        (c7.toNat - 48) + (c9.toNat - 48) + (c11.toNat - 48))) % 10) % 10)) := by
  have h12 : (pyStrip b).length = 12 := by
    rw [show (pyStrip b).length = (pyStrip b).data.length from rfl, hd]
    rfl
  have hne : (pyStrip b).data.isEmpty = false := by
    rw [hd]
    rfl
  have hcond : ((pyStrip b).length != 12 || !pyIsDigit (pyStrip b)) = false := by
    simp [pyIsDigit, h12, hne, hall]
  unfold ean13CheckDigit
  dsimp only
  rw [hcond, if_neg (by simp), hd]
  simp only [List.map_cons, List.map_nil, everyOther, List.drop_succ_cons,
    List.drop_zero, List.sum_cons, List.sum_nil]
  have heq : c0.toNat - 48 +
      (c2.toNat - 48 + (c4.toNat - 48 + (c6.toNat - 48 + (c8.toNat - 48 + (c10.toNat - 48 + 0))))) +
      3 * (c1.toNat - 48 + (c3.toNat - 48 + (c5.toNat - 48 + (c7.toNat - 48 + (c9.toNat - 48 + (c11.toNat - 48 + 0)))))) =
      c0.toNat - 48 + (c2.toNat - 48) + (c4.toNat - 48) + (c6.toNat - 48) + (c8.toNat - 48) + (c10.toNat - 48) +
      3 * (c1.toNat - 48 + (c3.toNat - 48) + (c5.toNat - 48) + (c7.toNat - 48) + (c9.toNat - 48) + (c11.toNat - 48)) := by
    omega
  rw [heq]

/-! ### Lemmas about the placeholder rows of the legacy migration -/

theorem placeholderRow_error {id : String}
    (hne : (pyStrip id).data.isEmpty = false)
    (herr : ean13CheckDigit (pyStrip id) = .error .service) :
    buildPlaceholderRow id =
      pyStrip id :: "" :: "" :: (List.replicate 30 "" ++ "1" :: ["", "", ""]) := by
  unfold buildPlaceholderRow
  simp only [hne, herr]
  rfl

theorem placeholderRow_ok {id cd : String}
    (hne : (pyStrip id).data.isEmpty = false)
    (hok : ean13CheckDigit (pyStrip id) = .ok cd) :
    buildPlaceholderRow id =
      pyStrip id :: cd :: (pyStrip id ++ cd) ::
        (List.replicate 30 "" ++ "1" :: ["", "", ""]) := by
  have hbc : buildBarcode (pyStrip id) = .ok (pyStrip id ++ cd) := by
    have h2 := buildBarcode_of_ok hok
    rwa [pyStrip_idem] at h2
  unfold buildPlaceholderRow
  simp only [hne, hok, hbc]
  rfl

/-! ### Stability of the concrete fixtures -/

theorem stable_wSt : Stable (fun s => s) wSt := by
  refine ⟨?_, ⟨5, wCats⟩, wCats, rfl, by decide, fun c _ => rfl, ?_, ?_, ?_⟩
  · show (wSt.files.map Prod.fst).Nodup
    decide
  · decide
  · decide
  · intro e he h1 h2
    exact absurd rfl h2

theorem stable_wSt3 : Stable (fun s => s) wSt3 := by
  refine ⟨?_, ⟨5, wCats⟩, wCats, rfl, by decide, fun c _ => rfl, ?_, ?_, ?_⟩
  · show (wSt3.files.map Prod.fst).Nodup
    decide
  · decide
  · decide
  · intro e he h1 h2
    exact absurd rfl h2

/-! ### The claims -/

/-- C1: in _append_rows_with_rollback, a category-file write failure after a
successful session-file write truncates the session file back to the byte
length captured before the call, leaves the category file untouched and
raises ServiceError; a fully successful call appends the row to both files;
and under every fault pattern the outcome is all-or-nothing: on any failure
both files hold exactly their old contents, on success both hold the new
row. -/
theorem C1_append_rollback (st : TwoFiles) (srow crow : List Char)
    (openOk sOk cOk : Bool) :
    (appendRowsWithRollback st srow crow true true false =
      (st, some .service)) ∧
    (appendRowsWithRollback st srow crow true true true =
      (⟨st.session ++ srow, st.category ++ crow⟩, none)) ∧
    (∀ res e, appendRowsWithRollback st srow crow openOk sOk cOk = (res, some e) →
      res = st ∧ e = .service) ∧
    (∀ res, appendRowsWithRollback st srow crow openOk sOk cOk = (res, none) →
      res = ⟨st.session ++ srow, st.category ++ crow⟩) := by
  have htake : (st.session ++ srow).take st.session.length = st.session :=
    List.take_left st.session srow
  refine ⟨?_, ?_, ?_, ?_⟩
  · simp [appendRowsWithRollback, htake]
  · simp [appendRowsWithRollback]
  · intro res e h
    cases openOk <;> cases sOk <;> cases cOk <;>
      simp [appendRowsWithRollback, htake] at h <;>
      exact ⟨h.1.symm, h.2.symm⟩
  · intro res h
    cases openOk <;> cases sOk <;> cases cOk <;>
      simp [appendRowsWithRollback, htake] at h <;>
      exact h.symm

/-- Witness for C1: with both files nonempty, forcing the category write to
fail after the session write succeeded leaves both files byte-identical and
raises ServiceError. -/
theorem C1_append_rollback_witness :
    appendRowsWithRollback ⟨['a'], ['b']⟩ ['s'] ['c'] true true false =
      (⟨['a'], ['b']⟩, some Err.service) ∧
    (⟨['a'], ['b']⟩ : TwoFiles) = ⟨['a'], ['b']⟩ := by
  have h := C1_append_rollback ⟨['a'], ['b']⟩ ['s'] ['c'] true true false
  exact ⟨h.1, (h.2.2.1 ⟨['a'], ['b']⟩ Err.service (by decide)).1⟩

/-- C2: on a stable registry state, get_next_id returns the 12-character id
made of the prefix 7809990, the category code zero-padded to 2 digits, and a
3-digit sequence equal to one plus the maximum over all read paths (the
canonical file plus every existing legacy-alias file) of the trailing 3-digit
sequence of each file's last non-blank Base EAN13 (sequence 000 when every
file is empty).  Its witness instantiates the canonical-010 / alias-099 pair
and obtains sequence 100. -/
theorem C2_next_id_formula {slugFn : String → String} {st : RegState}
    {slug : String} {store : CatStore} {cats : List Category} {cat : Category}
    {files : List Csv} {seqs : List Nat}
    (hst : Stable slugFn st)
    (hjson : st.json = some store)
    (hparse : parseCategories store.categories = .ok cats)
    (hfind : (sortBy (fun a b => decide (a.code ≤ b.code)) cats).find?
      (fun c => c.slug == pyNormalizeSlug slug
        (sortBy (fun a b => decide (a.code ≤ b.code)) cats)) = some cat)
    (hfiles : (categoryReadPaths st cat.slug).mapM (readF st) = .ok files)
    (hseqs : List.Forall₂ (fun v n => extractSequenceFromTail v = .ok n)
      (files.filterMap readLastRegisteredId) seqs)
    (hle : (if seqs.isEmpty then 0 else seqs.foldl max 0 + 1) ≤ 999)
    (hcode0 : 0 ≤ cat.code) (hcode99 : cat.code < 100) :
    getNextId slugFn st slug =
      .ok ("7809990" ++ pyFmtNat 2 cat.code.toNat ++
        pyFmtNat 3 (if seqs.isEmpty then 0 else seqs.foldl max 0 + 1), st) ∧
    ("7809990" ++ pyFmtNat 2 cat.code.toNat ++
      pyFmtNat 3 (if seqs.isEmpty then 0 else seqs.foldl max 0 + 1)).length = 12 := by
  have hv := @getNextIdValue_spec cat.code files seqs hseqs hle
  rw [pyFmtInt_nonneg 2 hcode0] at hv
  constructor
  · rw [getNextId_of_stable hst hjson hparse hfind, hfiles, except_bind_ok,
      hv, except_bind_ok]
    rfl
  · have hlt : (if seqs.isEmpty then 0 else seqs.foldl max 0 + 1) < 1000 := by
      omega
    rw [String.length_append, String.length_append,
      show ("7809990" : String).length = 7 from rfl,
      pyFmtNat_len2 cat.code.toNat (by omega),
      pyFmtNat_len3 _ hlt]

/-- Witness for C2: canonical neumatico file at sequence 010 plus an existing
legacy-alias file (neumaticos) at sequence 099 give id 780999004100, i.e.
sequence 100 = max(10, 99) + 1. -/
theorem C2_next_id_formula_witness :
    getNextId (fun s => s) wSt "neumatico" = .ok ("780999004100", wSt) := by
  have h := @C2_next_id_formula (fun s => s) wSt "neumatico" ⟨5, wCats⟩ wCats
    ⟨"neumatico", "Neumatico", 4⟩ [wFileA, wFileB] [10, 99]
    stable_wSt rfl (by decide) (by decide) (by decide)
    (by
      rw [show [wFileA, wFileB].filterMap readLastRegisteredId =
        ["780999004010", "780999004099"] from by decide]
      exact List.Forall₂.cons (by decide)
        (List.Forall₂.cons (by decide) List.Forall₂.nil))
    (by decide) (by decide) (by decide)
  exact h.1.trans (by decide)

/-- C3: on a stable registry state whose maximum used trailing sequence
across all read paths is 999, get_next_id fails with ServiceError and does
not return any id (so in particular it does not wrap around to 000). -/
theorem C3_next_id_ceiling {slugFn : String → String} {st : RegState}
    {slug : String} {store : CatStore} {cats : List Category} {cat : Category}
    {files : List Csv} {seqs : List Nat}
    (hst : Stable slugFn st)
    (hjson : st.json = some store)
    (hparse : parseCategories store.categories = .ok cats)
    (hfind : (sortBy (fun a b => decide (a.code ≤ b.code)) cats).find?
      (fun c => c.slug == pyNormalizeSlug slug
        (sortBy (fun a b => decide (a.code ≤ b.code)) cats)) = some cat)
    (hfiles : (categoryReadPaths st cat.slug).mapM (readF st) = .ok files)
    (hseqs : List.Forall₂ (fun v n => extractSequenceFromTail v = .ok n)
      (files.filterMap readLastRegisteredId) seqs)
    (hne : seqs ≠ [])
    (hmax : seqs.foldl max 0 = 999) :
    getNextId slugFn st slug = .error .service ∧
    ∀ v st2, getNextId slugFn st slug ≠ .ok (v, st2) := by
  have h1 : getNextId slugFn st slug = .error .service := by
    rw [getNextId_of_stable hst hjson hparse hfind, hfiles, except_bind_ok,
      getNextIdValue_ceiling hseqs hne hmax, except_bind_error]
  refine ⟨h1, fun v st2 hc => ?_⟩
  rw [h1] at hc
  cases hc

/-- Witness for C3: a category file whose last registered sequence is 999
makes get_next_id fail with ServiceError. -/
theorem C3_next_id_ceiling_witness :
    getNextId (fun s => s) wSt3 "neumatico" = .error .service := by
  have h := @C3_next_id_ceiling (fun s => s) wSt3 "neumatico" ⟨5, wCats⟩ wCats
    ⟨"neumatico", "Neumatico", 4⟩ [wFileC] [999]
    stable_wSt3 rfl (by decide) (by decide) (by decide)
    (by
      rw [show [wFileC].filterMap readLastRegisteredId =
        ["780999004999"] from by decide]
      exact List.Forall₂.cons (by decide) List.Forall₂.nil)
    (by decide) (by decide)
  exact h.1

/-- C4: ean13_check_digit fails with ServiceError exactly when the stripped
input is not 12 decimal digits; on a 12-digit input it returns the digit
(10 - (odd-position sum + 3 * even-position sum) mod 10) mod 10 (positions
1-indexed from the left), always a single character in 0..9; build_barcode
then returns the 13-character concatenation of the stripped base and the
check digit; and base 780999000001 gives check digit 3 and barcode
7809990000013. -/
theorem C4_check_digit_barcode :
    (∀ b, ean13CheckDigit b = .error .service ↔
        ¬((pyStrip b).length = 12 ∧ (pyStrip b).data.all Char.isDigit = true)) ∧
    (∀ b c0 c1 c2 c3 c4 c5 c6 c7 c8 c9 c10 c11,
        (pyStrip b).data = [c0, c1, c2, c3, c4, c5, c6, c7, c8, c9, c10, c11] →
        (pyStrip b).data.all Char.isDigit = true →
        ean13CheckDigit b = .ok (Nat.repr ((10 -
          (((c0.toNat - 48) + (c2.toNat - 48) + (c4.toNat - 48) + (c6.toNat - 48) +
            (c8.toNat - 48) + (c10.toNat - 48)) +
           3 * ((c1.toNat - 48) + (c3.toNat - 48) + (c5.toNat - 48) +
            (c7.toNat - 48) + (c9.toNat - 48) + (c11.toNat - 48))) % 10) % 10))) ∧
    (∀ b v, ean13CheckDigit b = .ok v →
        (∃ d, d < 10 ∧ v = Nat.repr d) ∧ v.length = 1 ∧
        buildBarcode b = .ok (pyStrip b ++ v) ∧ (pyStrip b ++ v).length = 13) ∧
    ean13CheckDigit "780999000001" = .ok "3" ∧
    buildBarcode "780999000001" = .ok "7809990000013" := by
  refine ⟨ean13_error_iff, ?_, ?_, by decide, by decide⟩
  · intro b c0 c1 c2 c3 c4 c5 c6 c7 c8 c9 c10 c11 hd hall
    exact ean13_value b c0 c1 c2 c3 c4 c5 c6 c7 c8 c9 c10 c11 hd hall
  · intro b v h
    obtain ⟨d, hdlt, hv⟩ := ean13_ok_inv h
    have hlen1 : v.length = 1 := by
      rw [hv]
      exact natRepr_len1 d hdlt
    have h12 := (ean13_ok_valid h).1
    refine ⟨⟨d, hdlt, hv⟩, hlen1, buildBarcode_of_ok h, ?_⟩
    have happ : (pyStrip b ++ v).length = (pyStrip b).length + v.length :=
      String.length_append _ _
    omega

/-- Witness for C4: a whitespace-padded valid base yields the stripped base
concatenated with its check digit, 13 characters in total. -/
theorem C4_check_digit_barcode_witness :
    buildBarcode " 780999000001 " = .ok (pyStrip " 780999000001 " ++ "3") ∧
    (pyStrip " 780999000001 " ++ "3").length = 13 := by
  have h := C4_check_digit_barcode.2.2.1 " 780999000001 " "3" (by decide)
  exact ⟨h.2.2.1, h.2.2.2⟩

/-- C5 (amended): only the server-side migrator refuses unknown headers.
ImportBuilderService._ensure_inventory_file fails with ServiceError and
leaves the file contents untouched whenever the stripped header row is
neither empty nor any of the known header generations.  The claim as stated
is refuted for the client-side migrator by C5_unknown_header_counterexample:
IdRegistry._normalize_csv_schema has no unknown-header error branch at
all. -/
theorem C5_unknown_header_server {rows : Csv}
    (h0 : ¬((rows.headD []).map pyStrip).isEmpty = true)
    (h1 : (rows.headD []).map pyStrip ≠ CATEGORY_INVENTORY_HEADERS)
    (h2 : (rows.headD []).map pyStrip ≠ headersWithoutTags CATEGORY_INVENTORY_HEADERS)
    (h3 : (rows.headD []).map pyStrip ≠
      headersWithoutTags CATEGORY_INVENTORY_HEADERS ++ [TAGS_HEADER])
    (h4 : (rows.headD []).map pyStrip ≠ headersWithoutTags IMPORT_HEADERS)
    (h5 : (rows.headD []).map pyStrip ≠ IMPORT_HEADERS) :
    ensureInventoryFile (some rows) = (some rows, .error .service) := by
  unfold ensureInventoryFile
  dsimp only
  rw [if_neg h0, if_neg (by simpa using h1), if_neg (by simpa using h2),
    if_neg (by simpa using h3), if_neg (by simpa using h4),
    if_neg (by simpa using h5)]

/-- C5 counterexample: the claim says every unknown header makes schema
normalization raise ServiceError without transforming the file.  The
client-side IdRegistry._normalize_csv_schema refutes it: the header Foo is
non-empty, not the legacy ids header and not canonical, yet normalization
does not fail — it silently rewrites the file to the canonical header with
the row projected onto blanks (tracking flag guessed as "1"). -/
theorem C5_unknown_header_counterexample :
    isLegacyIdsHeader (["Foo"].map pyStrip) = false ∧
    ["Foo"].map pyStrip ≠ INVENTORY_HEADERS ∧
    (["Foo"].map pyStrip).isEmpty = false ∧
    normalizeCsvSchemaOpt [["Foo"], ["bar"]] =
      some [INVENTORY_HEADERS,
        INVENTORY_HEADERS.map (fun c =>
          if c == TRACK_INVENTORY_HEADER then "1" else "")] := by
  refine ⟨by decide, by decide, by decide, by decide⟩

/-- Witness for C5: a concrete unknown header is refused by the server-side
migrator with the contents unchanged. -/
theorem C5_unknown_header_server_witness :
    ensureInventoryFile (some [["Foo"], ["bar"]]) =
      (some [["Foo"], ["bar"]], .error .service) :=
  C5_unknown_header_server (by decide) (by decide) (by decide) (by decide)
    (by decide) (by decide)

/-- C6: migrating a legacy single-column id file yields the canonical header
followed by one placeholder row per non-blank id, in file order; every
non-blank id of the legacy file is represented; a valid id's row carries the
stripped id, its check digit and its barcode in the three leading columns;
and every placeholder row has 37 columns with the tracking flag column
(index 33) set to "1". -/
theorem C6_legacy_migration (first : List String) (dataRows : Csv)
    (hleg : isLegacyIdsHeader (first.map pyStrip) = true) :
    normalizeCsvSchemaOpt (first :: dataRows) =
      some (INVENTORY_HEADERS ::
        ((dataRows.map (fun r => pyStrip (r.headD ""))).filter
            (fun s => !s.data.isEmpty)).map buildPlaceholderRow) ∧
    (∀ r ∈ dataRows, (pyStrip (r.headD "")).data.isEmpty = false →
      buildPlaceholderRow (pyStrip (r.headD "")) ∈
        ((dataRows.map (fun r => pyStrip (r.headD ""))).filter
            (fun s => !s.data.isEmpty)).map buildPlaceholderRow) ∧
    (∀ id cd, (pyStrip id).data.isEmpty = false →
      ean13CheckDigit (pyStrip id) = .ok cd →
      buildPlaceholderRow id =
        pyStrip id :: cd :: (pyStrip id ++ cd) ::
          (List.replicate 30 "" ++ "1" :: ["", "", ""])) ∧
    (∀ id, (buildPlaceholderRow id).length = 37 ∧
      (buildPlaceholderRow id).getD 33 "" = "1") := by
  refine ⟨?_, ?_, ?_, fun id => ⟨rfl, rfl⟩⟩
  · unfold normalizeCsvSchemaOpt
    dsimp only
    rw [if_pos hleg]
  · intro r hr hne
    exact List.mem_map_of_mem buildPlaceholderRow
      (List.mem_filter.mpr ⟨List.mem_map_of_mem _ hr,
        by show (!(pyStrip (r.headD "")).data.isEmpty) = true; rw [hne]; rfl⟩)
  · intro id cd hne hok
    exact placeholderRow_ok hne hok

/-- Witness for C6: a legacy id file with two valid ids and one blank row
migrates to exactly the two placeholder rows, in order. -/
theorem C6_legacy_migration_witness :
    normalizeCsvSchemaOpt [["id"], [" 780999000001 "], [""], ["780999000002"]] =
      some (INVENTORY_HEADERS ::
        [buildPlaceholderRow "780999000001", buildPlaceholderRow "780999000002"]) :=
  (C6_legacy_migration ["id"] [[" 780999000001 "], [""], ["780999000002"]]
    (by decide)).1.trans (by decide)

/-- C7: a whole-file rewrite writes the rendered contents to a temp file and
atomically replaces the target: in every intermediate filesystem state the
target path holds either the old contents or the complete new rendering (a
half-written file is only ever at the temp path); on failure the target is
byte-for-byte unchanged and the temp file is removed; on success the target
holds exactly the full rendering. -/
theorem C7_rewrite_atomic (fs : FsTmp) (header : List String) (rows : Csv)
    (writeOk replaceOk : Bool) (partialLen : Nat) :
    (∀ s ∈ (rewriteCsvStates fs header rows writeOk replaceOk partialLen).1,
      s.target = fs.target ∨ s.target = some (renderCsv (header :: rows))) ∧
    (∀ tr f2 e, rewriteCsvStates fs header rows writeOk replaceOk partialLen =
        (tr, f2, some e) →
      f2.target = fs.target ∧ f2.temp = none ∧ e = .service) ∧
    (∀ tr f2, rewriteCsvStates fs header rows writeOk replaceOk partialLen =
        (tr, f2, none) →
      f2 = ⟨some (renderCsv (header :: rows)), none⟩) := by
  refine ⟨?_, ?_, ?_⟩
  · intro s hs
    cases writeOk <;> cases replaceOk <;>
      simp [rewriteCsvStates] at hs <;>
      rcases hs with h | h | h <;> simp [h]
  · intro tr f2 e h
    cases writeOk <;> cases replaceOk <;>
      simp [rewriteCsvStates] at h <;>
      obtain ⟨h1, h2, h3⟩ := h <;> simp [← h2, ← h3]
  · intro tr f2 h
    cases writeOk <;> cases replaceOk <;>
      simp [rewriteCsvStates] at h <;>
      obtain ⟨h1, h2⟩ := h <;> simp [← h2]

/-- Witness for C7: a failed write against an existing target leaves the
target contents unchanged and no temp file behind. -/
theorem C7_rewrite_atomic_witness :
    ({ target := some ['x'], temp := none } : FsTmp).target = some ['x'] ∧
    ({ target := some ['x'], temp := none } : FsTmp).temp = none ∧
    Err.service = Err.service := by
  have h := C7_rewrite_atomic ⟨some ['x'], none⟩ ["h"] [] false true 0
  exact h.2.1 [⟨some ['x'], none⟩, ⟨some ['x'], some []⟩, ⟨some ['x'], none⟩]
    ⟨some ['x'], none⟩ Err.service (by decide)

/-- C8: get_next_id is read-only and non-reserving on a stable state: a
successful call returns the state it was given (so the stored files, and in
particular every Base EAN13 value, are unchanged), and an immediate second
call returns the same value again. -/
theorem C8_next_id_read_only {slugFn : String → String} {st st2 : RegState}
    {slug v : String} (hst : Stable slugFn st)
    (h : getNextId slugFn st slug = .ok (v, st2)) :
    st2 = st ∧ getNextId slugFn st2 slug = .ok (v, st2) ∧
      st2.files = st.files ∧ st2.json = st.json := by
  have he := getNextId_stable_state hst h
  subst he
  exact ⟨rfl, h, rfl, rfl⟩

/-- Witness for C8: two consecutive calls on the concrete two-file state both
return 780999004100 and leave the directory as it was. -/
theorem C8_next_id_read_only_witness :
    wSt = wSt ∧ getNextId (fun s => s) wSt "neumatico" = .ok ("780999004100", wSt) ∧
      wSt.files = wSt.files ∧ wSt.json = wSt.json :=
  C8_next_id_read_only stable_wSt (by decide)

/-- C9: ensure_initialized is idempotent: any state a successful run
produces is a fixed point, so a second run returns it unchanged — the
category JSON document and every file (hence every CSV header) are
byte-identical to the state after the first run. -/
theorem C9_ensure_idempotent {slugFn : String → String} {st0 st1 : RegState}
    (hnd : keysNodup st0)
    (hfix : ∀ store cats, (seedJson st0).json = some store →
      parseCategories store.categories = .ok cats →
      ∀ c ∈ cats, slugFn c.slug = c.slug)
    (h : ensureInitialized slugFn st0 = .ok st1) :
    ensureInitialized slugFn st1 = .ok st1 :=
  ensureInitialized_of_stable (stable_of_ensure hnd hfix h)

/-- Witness for C9: running ensure_initialized on the state produced from an
empty directory returns that state unchanged. -/
theorem C9_ensure_idempotent_witness :
    ensureInitialized (fun s => s) wSt9 = .ok wSt9 :=
  C9_ensure_idempotent (by show (wSt0.files.map Prod.fst).Nodup; decide)
    (fun _ _ _ _ c _ => rfl) (by decide)

/-- C10: a non-blank id that is not a valid 12-digit numeric base is not
rejected: check-digit derivation fails with ServiceError, but the
placeholder row is still produced — a 37-column canonical row whose Base
EAN13 column holds the stripped id, whose check-digit and barcode columns
are blank, and whose tracking flag column (index 33) is "1". -/
theorem C10_invalid_base_row {id : String}
    (hne : (pyStrip id).data.isEmpty = false)
    (hbad : ¬((pyStrip id).length = 12 ∧ (pyStrip id).data.all Char.isDigit = true)) :
    ean13CheckDigit (pyStrip id) = .error .service ∧
    buildPlaceholderRow id =
      pyStrip id :: "" :: "" :: (List.replicate 30 "" ++ "1" :: ["", "", ""]) ∧
    (buildPlaceholderRow id).length = 37 ∧
    (buildPlaceholderRow id).getD 0 "" = pyStrip id ∧
    (buildPlaceholderRow id).getD 33 "" = "1" := by
  have herr : ean13CheckDigit (pyStrip id) = .error .service := by
    refine (ean13_error_iff (pyStrip id)).mpr ?_
    rwa [pyStrip_idem]
  exact ⟨herr, placeholderRow_error hne herr, rfl, rfl, rfl⟩

/-- Witness for C10: the non-numeric id ABC still yields its placeholder row
with blank derived columns. -/
theorem C10_invalid_base_row_witness :
    buildPlaceholderRow "ABC" =
      pyStrip "ABC" :: "" :: "" :: (List.replicate 30 "" ++ "1" :: ["", "", ""]) :=
  (@C10_invalid_base_row "ABC" (by decide) (by decide)).2.1

end LazyProducts
